import Mathlib

/-!
Shallow embedding of the `yosys-netlist-json` crate (`src/lib.rs`): a typed
model and JSON codec for Yosys netlist files.  JSON documents are modelled as
trees (`Json`); JSON integers are modelled as `Int` (serde_json parses any
integer literal, and deserializing a `usize` field succeeds exactly when the
integer lies in `[0, 2^64)` on a 64-bit platform).  HashMaps are modelled as
association lists built by last-wins insertion, mirroring serde's
`HashMap::insert` loop; Rust `HashMap` equality is key-set/value equality, and
the list order is an artifact of the model.  The decode of each struct mirrors
the serde-derived `Deserialize` impl: unknown keys are ignored, a duplicated
known key is an error, `#[serde(default)]` fields fall back to their default
when the key is absent, required fields fail decode when absent, and every
present field must decode.  The encode mirrors the serde-derived `Serialize`
impl: all fields are always emitted, in declaration order.
-/

namespace Yosys

/-- The width bound of `usize` on a 64-bit platform: `usize::MAX + 1`. -/
def usizeBound : Nat := 2 ^ 64

/-- Generic JSON values (integer numerals only, which is all the codec's
numeric fields can accept). -/
inductive Json where
  | null : Json
  | bool (b : Bool) : Json
  | num (i : Int) : Json
  | str (s : String) : Json
  | arr (elems : List Json) : Json
  | obj (fields : List (String × Json)) : Json

/-- Deserializing a `usize` from a JSON value: succeeds exactly on integer
numbers in `[0, usizeBound)`; everything else (including out-of-range
numbers, which serde surfaces as an error rather than truncating) fails. -/
def decodeUsize : Json → Option Nat
  | .num (.ofNat n) => if n < usizeBound then some n else none
  | _ => none

/-- Serializing a `usize` emits a bare JSON integer. -/
def encodeUsize (n : Nat) : Json := .num (.ofNat n)

/-- Deserializing a Rust `String`: succeeds exactly on JSON strings. -/
def decodeString : Json → Option String
  | .str s => some s
  | _ => none

/-- `enum SpecialBit`: the four special constant bit values. -/
inductive SpecialBit where
  | _0 : SpecialBit
  | _1 : SpecialBit
  | X : SpecialBit
  | Z : SpecialBit
deriving DecidableEq

/-- Serde decode of `SpecialBit` (each variant `#[serde(rename)]`d to its
one-character string). -/
def SpecialBit.from_json : Json → Option SpecialBit
  | .str "0" => some ._0
  | .str "1" => some ._1
  | .str "x" => some .X
  | .str "z" => some .Z
  | _ => none

/-- Serde encode of `SpecialBit`. -/
def SpecialBit.to_json : SpecialBit → Json
  | ._0 => .str "0"
  | ._1 => .str "1"
  | .X => .str "x"
  | .Z => .str "z"

/-- `enum BitVal`: one bit of a wire, either a signal number or a special
constant. -/
inductive BitVal where
  | N (n : Nat) : BitVal
  | S (b : SpecialBit) : BitVal
deriving DecidableEq

/-- Serde decode of the `#[serde(untagged)]` enum `BitVal`: try the variants
in declaration order — `N (usize)` first, then `S (SpecialBit)`. -/
def BitVal.from_json (j : Json) : Option BitVal :=
  match decodeUsize j with
  | some n => some (.N n)
  | none =>
    match SpecialBit.from_json j with
    | some b => some (.S b)
    | none => none

/-- Serde encode of `BitVal`: untagged, so each variant emits its payload. -/
def BitVal.to_json : BitVal → Json
  | .N n => encodeUsize n
  | .S b => b.to_json

/-- `enum AttributeVal`: an attribute/parameter value, numeric or string. -/
inductive AttributeVal where
  | N (n : Nat) : AttributeVal
  | S (s : String) : AttributeVal
deriving DecidableEq

/-- Serde decode of the `#[serde(untagged)]` enum `AttributeVal`: try
`N (usize)` first, then `S (String)`. -/
def AttributeVal.from_json (j : Json) : Option AttributeVal :=
  match decodeUsize j with
  | some n => some (.N n)
  | none =>
    match decodeString j with
    | some s => some (.S s)
    | none => none

/-- Serde encode of `AttributeVal`. -/
def AttributeVal.to_json : AttributeVal → Json
  | .N n => encodeUsize n
  | .S s => .str s

/-- The digit-accumulation loop of `usize::from_str_radix(s, 2)`: consume
binary digits left to right; a non-digit character is an error. -/
def binDigits : List Char → Nat → Option Nat
  | [], acc => some acc
  | c :: rest, acc =>
    if c = '0' then binDigits rest (2 * acc)
    else if c = '1' then binDigits rest (2 * acc + 1)
    else none

/-- `usize::from_str_radix(s, 2)` as an `Option` (`.ok()`): an optional
single leading `+` sign, then one or more binary digits, with overflow past
`usize::MAX` an error. -/
def from_str_radix_2 (s : String) : Option Nat :=
  let digits : List Char :=
    match s.data with
    | [] => []
    | c :: rest => if c = '+' then rest else c :: rest
  if digits.isEmpty then none
  else
    match binDigits digits 0 with
    | none => none
    | some v => if v < usizeBound then some v else none

/-- `AttributeVal::to_number`. -/
def AttributeVal.to_number : AttributeVal → Option Nat
  | .N n => some n
  | .S s => if s.length = 0 then some 0 else from_str_radix_2 s

/-- The character test used by `to_string_if_string`: is `c` one of the
constant-bit characters `0`, `1`, `x`, `z`? -/
def isBitChar (c : Char) : Bool :=
  c = '0' || c = '1' || c = 'x' || c = 'z'

/-- `AttributeVal::to_string_if_string`. -/
def AttributeVal.to_string_if_string : AttributeVal → Option String
  | .N _ => none
  | .S s =>
    if s.length = 0 then none
    else if s.data.all isBitChar then none
    else if s.data.getLast? = some ' ' then some (String.mk s.data.dropLast)
    else some s

/-- `AttributeVal::to_string_if_string` with the internal
`s.as_bytes().last().unwrap()` made explicit: the `.error` branch is the
panic of `unwrap` on an empty string. -/
def to_string_if_string_checked : AttributeVal → Except Unit (Option String)
  | .N _ => .ok none
  | .S s =>
    if s.length = 0 then .ok none
    else if s.data.all isBitChar then .ok none
    else
      match s.data.getLast? with
      | none => .error ()
      | some c =>
        if c = ' ' then .ok (some (String.mk s.data.dropLast))
        else .ok (some s)

/-- Look a struct field up among the entries of a JSON object, the way the
serde-derived visitor consumes entries: absent is `some none`, present once
is `some (some value)`, and a duplicated known field is a decode error
(`none`). -/
def lookupField (fields : List (String × Json)) (name : String) : Option (Option Json) :=
  match fields.filter (fun p => p.1 == name) with
  | [] => some none
  | [p] => some (some p.2)
  | _ => none

/-- Decode a `#[serde(default)]` struct field: fall back to `dflt` when the
key is absent. -/
def getOpt (fields : List (String × Json)) (name : String)
    (dec : Json → Option α) (dflt : α) : Option α :=
  match lookupField fields name with
  | none => none
  | some none => some dflt
  | some (some j) => dec j

/-- Decode a required struct field: fail when the key is absent. -/
def getReq (fields : List (String × Json)) (name : String)
    (dec : Json → Option α) : Option α :=
  match lookupField fields name with
  | none => none
  | some none => none
  | some (some j) => dec j

/-- Deserializing a `Vec<T>`: the value must be a JSON array and every
element must decode. -/
def decodeElems (dec : Json → Option α) : List Json → Option (List α)
  | [] => some []
  | j :: rest =>
    match dec j with
    | none => none
    | some a =>
      match decodeElems dec rest with
      | none => none
      | some l => some (a :: l)

/-- Deserializing a `Vec<T>` from a JSON value. -/
def decodeVec (dec : Json → Option α) : Json → Option (List α)
  | .arr elems => decodeElems dec elems
  | _ => none

/-- `HashMap::insert`, on the association-list model: overwrite any existing
binding of the key (last wins). -/
def insertKV (l : List (String × α)) (k : String) (v : α) : List (String × α) :=
  l.filter (fun p => p.1 != k) ++ [(k, v)]

/-- The serde map visitor for `HashMap<String, T>`: decode each entry's
value and insert it. -/
def decodeMapEntries (dec : Json → Option α) :
    List (String × Json) → List (String × α) → Option (List (String × α))
  | [], acc => some acc
  | (k, j) :: rest, acc =>
    match dec j with
    | none => none
    | some a => decodeMapEntries dec rest (insertKV acc k a)

/-- Deserializing a `HashMap<String, T>` from a JSON value. -/
def decodeMap (dec : Json → Option α) : Json → Option (List (String × α))
  | .obj fields => decodeMapEntries dec fields []
  | _ => none

/-- Serializing a `Vec<T>`. -/
def encodeVec (enc : α → Json) (l : List α) : Json := .arr (l.map enc)

/-- Serializing a `HashMap<String, T>` (iteration order is arbitrary in
Rust; the model emits the entries in list order). -/
def encodeMap (enc : α → Json) (l : List (String × α)) : Json :=
  .obj (l.map (fun p => (p.1, enc p.2)))

/-- `enum PortDirection`. -/
inductive PortDirection where
  | Input : PortDirection
  | Output : PortDirection
  | InOut : PortDirection
deriving DecidableEq

/-- Serde decode of `PortDirection` (variants renamed to lowercase). -/
def PortDirection.from_json : Json → Option PortDirection
  | .str "input" => some .Input
  | .str "output" => some .Output
  | .str "inout" => some .InOut
  | _ => none

/-- Serde encode of `PortDirection`. -/
def PortDirection.to_json : PortDirection → Json
  | .Input => .str "input"
  | .Output => .str "output"
  | .InOut => .str "inout"

/-- `struct Port`. -/
structure Port where
  direction : PortDirection
  bits : List BitVal
  offset : Nat
  upto : Nat
  signed : Nat
deriving DecidableEq

/-- Serde decode of `Port`: `direction` and `bits` required, the rest
`#[serde(default)]`. -/
def Port.from_json : Json → Option Port
  | .obj fields => do
    let direction ← getReq fields "direction" PortDirection.from_json
    let bits ← getReq fields "bits" (decodeVec BitVal.from_json)
    let offset ← getOpt fields "offset" decodeUsize 0
    let upto ← getOpt fields "upto" decodeUsize 0
    let signed ← getOpt fields "signed" decodeUsize 0
    pure ⟨direction, bits, offset, upto, signed⟩
  | _ => none

/-- Serde encode of `Port`: all fields, declaration order. -/
def Port.to_json (p : Port) : Json :=
  .obj [("direction", p.direction.to_json),
        ("bits", encodeVec BitVal.to_json p.bits),
        ("offset", encodeUsize p.offset),
        ("upto", encodeUsize p.upto),
        ("signed", encodeUsize p.signed)]

/-- `struct Cell`.  The JSON key of `cell_type` is `type`
(`#[serde(rename)]`). -/
structure Cell where
  hide_name : Nat
  cell_type : String
  parameters : List (String × AttributeVal)
  attributes : List (String × AttributeVal)
  port_directions : List (String × PortDirection)
  connections : List (String × List BitVal)
deriving DecidableEq

/-- Serde decode of `Cell`: `type` and `connections` required, the rest
`#[serde(default)]`. -/
def Cell.from_json : Json → Option Cell
  | .obj fields => do
    let hide_name ← getOpt fields "hide_name" decodeUsize 0
    let cell_type ← getReq fields "type" decodeString
    let parameters ← getOpt fields "parameters" (decodeMap AttributeVal.from_json) []
    let attributes ← getOpt fields "attributes" (decodeMap AttributeVal.from_json) []
    let port_directions ← getOpt fields "port_directions" (decodeMap PortDirection.from_json) []
    let connections ← getReq fields "connections" (decodeMap (decodeVec BitVal.from_json))
    pure ⟨hide_name, cell_type, parameters, attributes, port_directions, connections⟩
  | _ => none

/-- Serde encode of `Cell`. -/
def Cell.to_json (c : Cell) : Json :=
  .obj [("hide_name", encodeUsize c.hide_name),
        ("type", .str c.cell_type),
        ("parameters", encodeMap AttributeVal.to_json c.parameters),
        ("attributes", encodeMap AttributeVal.to_json c.attributes),
        ("port_directions", encodeMap PortDirection.to_json c.port_directions),
        ("connections", encodeMap (encodeVec BitVal.to_json) c.connections)]

/-- `struct Memory`. -/
structure Memory where
  hide_name : Nat
  attributes : List (String × AttributeVal)
  width : Nat
  size : Nat
  start_offset : Nat
deriving DecidableEq

/-- Serde decode of `Memory`: `width` and `size` required, the rest
`#[serde(default)]`. -/
def Memory.from_json : Json → Option Memory
  | .obj fields => do
    let hide_name ← getOpt fields "hide_name" decodeUsize 0
    let attributes ← getOpt fields "attributes" (decodeMap AttributeVal.from_json) []
    let width ← getReq fields "width" decodeUsize
    let size ← getReq fields "size" decodeUsize
    let start_offset ← getOpt fields "start_offset" decodeUsize 0
    pure ⟨hide_name, attributes, width, size, start_offset⟩
  | _ => none

/-- Serde encode of `Memory`. -/
def Memory.to_json (m : Memory) : Json :=
  .obj [("hide_name", encodeUsize m.hide_name),
        ("attributes", encodeMap AttributeVal.to_json m.attributes),
        ("width", encodeUsize m.width),
        ("size", encodeUsize m.size),
        ("start_offset", encodeUsize m.start_offset)]

/-- `struct Netname`. -/
structure Netname where
  hide_name : Nat
  bits : List BitVal
  offset : Nat
  upto : Nat
  signed : Nat
  attributes : List (String × AttributeVal)
deriving DecidableEq

/-- Serde decode of `Netname`: `bits` required, the rest
`#[serde(default)]`. -/
def Netname.from_json : Json → Option Netname
  | .obj fields => do
    let hide_name ← getOpt fields "hide_name" decodeUsize 0
    let bits ← getReq fields "bits" (decodeVec BitVal.from_json)
    let offset ← getOpt fields "offset" decodeUsize 0
    let upto ← getOpt fields "upto" decodeUsize 0
    let signed ← getOpt fields "signed" decodeUsize 0
    let attributes ← getOpt fields "attributes" (decodeMap AttributeVal.from_json) []
    pure ⟨hide_name, bits, offset, upto, signed, attributes⟩
  | _ => none

/-- Serde encode of `Netname`. -/
def Netname.to_json (n : Netname) : Json :=
  .obj [("hide_name", encodeUsize n.hide_name),
        ("bits", encodeVec BitVal.to_json n.bits),
        ("offset", encodeUsize n.offset),
        ("upto", encodeUsize n.upto),
        ("signed", encodeUsize n.signed),
        ("attributes", encodeMap AttributeVal.to_json n.attributes)]

/-- `struct Module`. -/
structure Module where
  attributes : List (String × AttributeVal)
  parameter_default_values : List (String × AttributeVal)
  ports : List (String × Port)
  cells : List (String × Cell)
  memories : List (String × Memory)
  netnames : List (String × Netname)
deriving DecidableEq

/-- Serde decode of `Module`: every field `#[serde(default)]`. -/
def Module.from_json : Json → Option Module
  | .obj fields => do
    let attributes ← getOpt fields "attributes" (decodeMap AttributeVal.from_json) []
    let parameter_default_values ←
      getOpt fields "parameter_default_values" (decodeMap AttributeVal.from_json) []
    let ports ← getOpt fields "ports" (decodeMap Port.from_json) []
    let cells ← getOpt fields "cells" (decodeMap Cell.from_json) []
    let memories ← getOpt fields "memories" (decodeMap Memory.from_json) []
    let netnames ← getOpt fields "netnames" (decodeMap Netname.from_json) []
    pure ⟨attributes, parameter_default_values, ports, cells, memories, netnames⟩
  | _ => none

/-- Serde encode of `Module`. -/
def Module.to_json (m : Module) : Json :=
  .obj [("attributes", encodeMap AttributeVal.to_json m.attributes),
        ("parameter_default_values", encodeMap AttributeVal.to_json m.parameter_default_values),
        ("ports", encodeMap Port.to_json m.ports),
        ("cells", encodeMap Cell.to_json m.cells),
        ("memories", encodeMap Memory.to_json m.memories),
        ("netnames", encodeMap Netname.to_json m.netnames)]

/-- `struct Netlist`: the root of a Yosys `.json` file. -/
structure Netlist where
  creator : String
  modules : List (String × Module)
deriving DecidableEq

/-- Serde decode of `Netlist`: both fields `#[serde(default)]`. -/
def Netlist.from_json : Json → Option Netlist
  | .obj fields => do
    let creator ← getOpt fields "creator" decodeString ""
    let modules ← getOpt fields "modules" (decodeMap Module.from_json) []
    pure ⟨creator, modules⟩
  | _ => none

/-- Serde encode of `Netlist`. -/
def Netlist.to_json (m : Netlist) : Json :=
  .obj [("creator", .str m.creator),
        ("modules", encodeMap Module.to_json m.modules)]

/-- `Netlist::new`. -/
def Netlist.new (creator : String) : Netlist := ⟨creator, []⟩

/-- One hexadecimal digit, lowercase (serde_json's escape table). -/
def hexDigit (n : Nat) : Char :=
  if n < 10 then Char.ofNat (48 + n) else Char.ofNat (97 + (n - 10))

/-- serde_json string escaping of one character: `"` and `\` get a
backslash, the named control characters get their short escapes, any other
control character below `0x20` becomes `\u00XX`, everything else is emitted
verbatim. -/
def escapeChar (c : Char) : String :=
  if c = '\"' then "\\\""
  else if c = '\\' then "\\\\"
  else if c = '\x08' then "\\b"
  else if c = '\t' then "\\t"
  else if c = '\n' then "\\n"
  else if c = '\x0c' then "\\f"
  else if c = '\r' then "\\r"
  else if c.toNat < 32 then
    String.mk ['\\', 'u', '0', '0', hexDigit (c.toNat / 16), hexDigit (c.toNat % 16)]
  else String.mk [c]

/-- serde_json rendering of a JSON string (quotes plus escaping). -/
def quote (s : String) : String :=
  "\"" ++ String.join (s.data.map escapeChar) ++ "\""

/-- Comma-separated rendering of a sequence. -/
def renderElems (render : α → String) : List α → String
  | [] => ""
  | [a] => render a
  | a :: rest => render a ++ "," ++ renderElems render rest

/-- serde_json compact rendering of a JSON array. -/
def renderArr (render : α → String) (l : List α) : String :=
  "[" ++ renderElems render l ++ "]"

/-- serde_json compact rendering of one object entry. -/
def renderEntry (render : α → String) (p : String × α) : String :=
  quote p.1 ++ ":" ++ render p.2

/-- serde_json compact rendering of a JSON object. -/
def renderObj (render : α → String) (l : List (String × α)) : String :=
  "\x7b" ++ renderElems (renderEntry render) l ++ "\x7d"

/-- serde_json rendering of `SpecialBit`. -/
def SpecialBit.render : SpecialBit → String
  | ._0 => "\"0\""
  | ._1 => "\"1\""
  | .X => "\"x\""
  | .Z => "\"z\""

/-- serde_json rendering of `BitVal`. -/
def BitVal.render : BitVal → String
  | .N n => Nat.repr n
  | .S b => b.render

/-- serde_json rendering of `AttributeVal`. -/
def AttributeVal.render : AttributeVal → String
  | .N n => Nat.repr n
  | .S s => quote s

/-- serde_json rendering of `PortDirection`. -/
def PortDirection.render : PortDirection → String
  | .Input => "\"input\""
  | .Output => "\"output\""
  | .InOut => "\"inout\""

/-- serde_json rendering of `Port` (all fields, declaration order). -/
def Port.render (p : Port) : String :=
  "\x7b\"direction\":" ++ p.direction.render
    ++ ",\"bits\":" ++ renderArr BitVal.render p.bits
    ++ ",\"offset\":" ++ Nat.repr p.offset
    ++ ",\"upto\":" ++ Nat.repr p.upto
    ++ ",\"signed\":" ++ Nat.repr p.signed ++ "\x7d"

/-- serde_json rendering of `Cell` (`cell_type` under the key `type`). -/
def Cell.render (c : Cell) : String :=
  "\x7b\"hide_name\":" ++ Nat.repr c.hide_name
    ++ ",\"type\":" ++ quote c.cell_type
    ++ ",\"parameters\":" ++ renderObj AttributeVal.render c.parameters
    ++ ",\"attributes\":" ++ renderObj AttributeVal.render c.attributes
    ++ ",\"port_directions\":" ++ renderObj PortDirection.render c.port_directions
    ++ ",\"connections\":" ++ renderObj (renderArr BitVal.render) c.connections ++ "\x7d"

/-- serde_json rendering of `Memory`. -/
def Memory.render (m : Memory) : String :=
  "\x7b\"hide_name\":" ++ Nat.repr m.hide_name
    ++ ",\"attributes\":" ++ renderObj AttributeVal.render m.attributes
    ++ ",\"width\":" ++ Nat.repr m.width
    ++ ",\"size\":" ++ Nat.repr m.size
    ++ ",\"start_offset\":" ++ Nat.repr m.start_offset ++ "\x7d"

/-- serde_json rendering of `Netname`. -/
def Netname.render (n : Netname) : String :=
  "\x7b\"hide_name\":" ++ Nat.repr n.hide_name
    ++ ",\"bits\":" ++ renderArr BitVal.render n.bits
    ++ ",\"offset\":" ++ Nat.repr n.offset
    ++ ",\"upto\":" ++ Nat.repr n.upto
    ++ ",\"signed\":" ++ Nat.repr n.signed
    ++ ",\"attributes\":" ++ renderObj AttributeVal.render n.attributes ++ "\x7d"

/-- serde_json rendering of `Module`. -/
def Module.render (m : Module) : String :=
  "\x7b\"attributes\":" ++ renderObj AttributeVal.render m.attributes
    ++ ",\"parameter_default_values\":" ++ renderObj AttributeVal.render m.parameter_default_values
    ++ ",\"ports\":" ++ renderObj Port.render m.ports
    ++ ",\"cells\":" ++ renderObj Cell.render m.cells
    ++ ",\"memories\":" ++ renderObj Memory.render m.memories
    ++ ",\"netnames\":" ++ renderObj Netname.render m.netnames ++ "\x7d"

/-- `Netlist::to_string` (`serde_json::to_string`): compact rendering, all
fields, declaration order.  Serialization of this type cannot fail, so the
`Result` is modelled as the string itself. -/
def Netlist.to_string (m : Netlist) : String :=
  "\x7b\"creator\":" ++ quote m.creator
    ++ ",\"modules\":" ++ renderObj Module.render m.modules ++ "\x7d"

/-! ## Well-formedness: the values that decoding can produce -/

/-- Values that decode can produce: the payload of `BitVal.N` fits in a
`usize`. -/
def BitVal.wf : BitVal → Prop
  | .N n => n < usizeBound
  | .S _ => True

/-- Values that decode can produce: the payload of `AttributeVal.N` fits in
a `usize`. -/
def AttributeVal.wf : AttributeVal → Prop
  | .N n => n < usizeBound
  | .S _ => True

/-- Well-formed association lists: distinct keys, well-formed values. -/
def EntriesWf (P : α → Prop) (l : List (String × α)) : Prop :=
  (l.map Prod.fst).Nodup ∧ ∀ p ∈ l, P p.2

/-! ## Leaf codec lemmas -/

theorem decodeUsize_lt {j : Json} {n : Nat} (h : decodeUsize j = some n) :
    n < usizeBound := by
  cases j with
  | num i =>
    cases i with
    | ofNat m =>
      simp only [decodeUsize] at h
      split at h
      · cases h
        assumption
      · cases h
    | negSucc m => cases h
  | null => cases h
  | bool b => cases h
  | str s => cases h
  | arr l => cases h
  | obj l => cases h

theorem decodeUsize_encode {n : Nat} (h : n < usizeBound) :
    decodeUsize (encodeUsize n) = some n := by
  simp only [decodeUsize, encodeUsize]
  rw [if_pos h]

theorem specialbit_from_to (b : SpecialBit) :
    SpecialBit.from_json b.to_json = some b := by
  cases b <;> rfl

theorem bitval_from_json_wf {j : Json} {b : BitVal}
    (h : BitVal.from_json j = some b) : b.wf := by
  unfold BitVal.from_json at h
  split at h
  · rename_i n hn
    cases h
    exact decodeUsize_lt hn
  · split at h
    · cases h
      trivial
    · cases h

theorem bitval_from_to {b : BitVal} (h : b.wf) :
    BitVal.from_json b.to_json = some b := by
  cases b with
  | N n =>
    unfold BitVal.to_json BitVal.from_json
    rw [decodeUsize_encode h]
  | S s =>
    unfold BitVal.to_json BitVal.from_json
    have hd : decodeUsize s.to_json = none := by cases s <;> rfl
    rw [hd, specialbit_from_to]

theorem attributeval_from_json_wf {j : Json} {a : AttributeVal}
    (h : AttributeVal.from_json j = some a) : a.wf := by
  unfold AttributeVal.from_json at h
  split at h
  · rename_i n hn
    cases h
    exact decodeUsize_lt hn
  · split at h
    · cases h
      trivial
    · cases h

theorem attributeval_from_to {a : AttributeVal} (h : a.wf) :
    AttributeVal.from_json a.to_json = some a := by
  cases a with
  | N n =>
    unfold AttributeVal.to_json AttributeVal.from_json
    rw [decodeUsize_encode h]
  | S s => rfl

theorem portdirection_from_to (d : PortDirection) :
    PortDirection.from_json d.to_json = some d := by
  cases d <;> rfl

/-! ## Container codec lemmas -/

theorem decodeElems_prop {dec : Json → Option α} {P : α → Prop}
    (hdec : ∀ j a, dec j = some a → P a) :
    ∀ {js : List Json} {l : List α}, decodeElems dec js = some l → ∀ a ∈ l, P a := by
  intro js
  induction js with
  | nil =>
    intro l h a ha
    cases h
    cases ha
  | cons j rest ih =>
    intro l h a ha
    simp only [decodeElems] at h
    cases hj : dec j with
    | none => rw [hj] at h; cases h
    | some b =>
      rw [hj] at h
      cases hr : decodeElems dec rest with
      | none => rw [hr] at h; cases h
      | some tl =>
        rw [hr] at h
        cases h
        rcases List.mem_cons.mp ha with rfl | hmem
        · exact hdec _ _ hj
        · exact ih hr _ hmem

theorem decodeVec_prop {dec : Json → Option α} {P : α → Prop}
    (hdec : ∀ j a, dec j = some a → P a) {j : Json} {l : List α}
    (h : decodeVec dec j = some l) : ∀ a ∈ l, P a := by
  cases j with
  | arr elems => exact decodeElems_prop hdec h
  | null => cases h
  | bool b => cases h
  | num i => cases h
  | str s => cases h
  | obj fields => cases h

theorem decodeElems_encode {dec : Json → Option α} {enc : α → Json}
    {l : List α} (h : ∀ a ∈ l, dec (enc a) = some a) :
    decodeElems dec (l.map enc) = some l := by
  induction l with
  | nil => rfl
  | cons a rest ih =>
    simp only [List.map_cons, decodeElems]
    rw [h a (List.mem_cons_self a rest), ih (fun b hb => h b (List.mem_cons_of_mem a hb))]

theorem decodeVec_encode {dec : Json → Option α} {enc : α → Json}
    {l : List α} (h : ∀ a ∈ l, dec (enc a) = some a) :
    decodeVec dec (encodeVec enc l) = some l :=
  decodeElems_encode h

theorem insertKV_keys_nodup {l : List (String × α)} {k : String} {v : α}
    (h : (l.map Prod.fst).Nodup) : ((insertKV l k v).map Prod.fst).Nodup := by
  unfold insertKV
  rw [List.map_append]
  rw [List.nodup_append]
  refine ⟨?_, List.nodup_singleton k, ?_⟩
  · exact ((List.filter_sublist l).map Prod.fst).nodup h
  · intro a ha hb
    simp only [List.map_singleton, List.mem_singleton] at hb
    rcases List.mem_map.mp ha with ⟨p, hp, hpa⟩
    have hne : p.1 ≠ k := by simpa using List.of_mem_filter hp
    exact hne (hpa.trans hb)

theorem insertKV_prop {P : α → Prop} {l : List (String × α)} {k : String} {v : α}
    (hl : ∀ p ∈ l, P p.2) (hv : P v) : ∀ p ∈ insertKV l k v, P p.2 := by
  intro p hp
  unfold insertKV at hp
  rcases List.mem_append.mp hp with hmem | hmem
  · exact hl p (List.mem_of_mem_filter hmem)
  · rw [List.mem_singleton] at hmem
    subst hmem
    exact hv

theorem insertKV_of_fresh {l : List (String × α)} {k : String} {v : α}
    (h : ∀ p ∈ l, p.1 ≠ k) : insertKV l k v = l ++ [(k, v)] := by
  unfold insertKV
  congr 1
  rw [List.filter_eq_self]
  intro p hp
  simpa using h p hp

theorem decodeMapEntries_prop {dec : Json → Option α} {P : α → Prop}
    (hdec : ∀ j a, dec j = some a → P a) :
    ∀ {entries : List (String × Json)} {acc l : List (String × α)},
      EntriesWf P acc → decodeMapEntries dec entries acc = some l → EntriesWf P l := by
  intro entries
  induction entries with
  | nil =>
    intro acc l hacc h
    cases h
    exact hacc
  | cons e rest ih =>
    intro acc l hacc h
    obtain ⟨k, j⟩ := e
    simp only [decodeMapEntries] at h
    cases hj : dec j with
    | none => rw [hj] at h; cases h
    | some a =>
      rw [hj] at h
      exact ih ⟨insertKV_keys_nodup hacc.1, insertKV_prop hacc.2 (hdec _ _ hj)⟩ h

theorem EntriesWf_nil {P : α → Prop} : EntriesWf P ([] : List (String × α)) := by
  exact ⟨List.nodup_nil, fun p hp => absurd hp (List.not_mem_nil p)⟩

theorem decodeMap_prop {dec : Json → Option α} {P : α → Prop}
    (hdec : ∀ j a, dec j = some a → P a) {j : Json} {l : List (String × α)}
    (h : decodeMap dec j = some l) : EntriesWf P l := by
  cases j with
  | obj fields => exact decodeMapEntries_prop hdec EntriesWf_nil h
  | null => cases h
  | bool b => cases h
  | num i => cases h
  | str s => cases h
  | arr elems => cases h

theorem decodeMapEntries_encode {dec : Json → Option α} {enc : α → Json} :
    ∀ {l acc : List (String × α)},
      ((acc ++ l).map Prod.fst).Nodup →
      (∀ p ∈ l, dec (enc p.2) = some p.2) →
      decodeMapEntries dec (l.map (fun p => (p.1, enc p.2))) acc = some (acc ++ l) := by
  intro l
  induction l with
  | nil =>
    intro acc _ _
    simp [decodeMapEntries]
  | cons p rest ih =>
    intro acc hnd hdec
    obtain ⟨k, v⟩ := p
    simp only [List.map_cons, decodeMapEntries]
    rw [hdec (k, v) (List.mem_cons_self _ _)]
    show decodeMapEntries dec (List.map (fun p => (p.1, enc p.2)) rest) (insertKV acc k v)
        = some (acc ++ (k, v) :: rest)
    have hfresh : ∀ q ∈ acc, q.1 ≠ k := by
      intro q hq hqk
      rw [List.map_append, List.nodup_append] at hnd
      exact hnd.2.2 (List.mem_map_of_mem Prod.fst hq)
        (by rw [hqk]; exact List.mem_cons_self _ _)
    rw [insertKV_of_fresh hfresh]
    have hnd' : (((acc ++ [(k, v)]) ++ rest).map Prod.fst).Nodup := by
      rw [List.append_assoc, List.singleton_append]
      exact hnd
    rw [ih hnd' (fun q hq => hdec q (List.mem_cons_of_mem _ hq))]
    rw [List.append_assoc, List.singleton_append]

theorem decodeMap_encode {dec : Json → Option α} {enc : α → Json}
    {l : List (String × α)} (hnd : (l.map Prod.fst).Nodup)
    (hdec : ∀ p ∈ l, dec (enc p.2) = some p.2) :
    decodeMap dec (encodeMap enc l) = some l := by
  have h := @decodeMapEntries_encode _ dec enc l [] (by simpa using hnd) hdec
  simpa [decodeMap, encodeMap] using h

/-! ## Struct codec lemmas -/

theorem getOpt_prop {dec : Json → Option α} {P : α → Prop}
    (hdec : ∀ j a, dec j = some a → P a) {fields : List (String × Json)}
    {name : String} {dflt a : α} (hdflt : P dflt)
    (h : getOpt fields name dec dflt = some a) : P a := by
  unfold getOpt at h
  split at h
  · cases h
  · cases h
    exact hdflt
  · exact hdec _ _ h

theorem getReq_prop {dec : Json → Option α} {P : α → Prop}
    (hdec : ∀ j a, dec j = some a → P a) {fields : List (String × Json)}
    {name : String} {a : α} (h : getReq fields name dec = some a) : P a := by
  unfold getReq at h
  split at h
  · cases h
  · cases h
  · exact hdec _ _ h

theorem usizeBound_pos : 0 < usizeBound := by
  unfold usizeBound
  positivity

theorem decodeString_encode (s : String) : decodeString (Json.str s) = some s := rfl

/-- Values `Port` decode can produce. -/
def Port.wf (p : Port) : Prop :=
  (∀ b ∈ p.bits, b.wf) ∧ p.offset < usizeBound ∧ p.upto < usizeBound ∧
    p.signed < usizeBound

theorem port_from_json_wf {j : Json} {p : Port}
    (h : Port.from_json j = some p) : p.wf := by
  cases j with
  | obj fields =>
    simp only [Port.from_json, Option.bind_eq_bind, Option.bind_eq_some,
      Option.pure_def, Option.some.injEq] at h
    obtain ⟨d, hd, bits, hbits, off, hoff, upto, hupto, sgn, hsgn, hp⟩ := h
    subst hp
    exact ⟨getReq_prop (fun j l hl =>
        decodeVec_prop (fun j a ha => bitval_from_json_wf ha) hl) hbits,
      getOpt_prop (fun j a ha => decodeUsize_lt ha) usizeBound_pos hoff,
      getOpt_prop (fun j a ha => decodeUsize_lt ha) usizeBound_pos hupto,
      getOpt_prop (fun j a ha => decodeUsize_lt ha) usizeBound_pos hsgn⟩
  | null => cases h
  | bool b => cases h
  | num i => cases h
  | str s => cases h
  | arr l => cases h

theorem port_from_to {p : Port} (hw : p.wf) :
    Port.from_json (Port.to_json p) = some p := by
  obtain ⟨hbits, hoff, hupto, hsgn⟩ := hw
  show ((PortDirection.from_json p.direction.to_json).bind fun direction =>
      (decodeVec BitVal.from_json (encodeVec BitVal.to_json p.bits)).bind fun bits =>
      (decodeUsize (encodeUsize p.offset)).bind fun offset =>
      (decodeUsize (encodeUsize p.upto)).bind fun upto =>
      (decodeUsize (encodeUsize p.signed)).bind fun signed =>
      some ⟨direction, bits, offset, upto, signed⟩) = some p
  rw [portdirection_from_to, decodeVec_encode (fun a ha => bitval_from_to (hbits a ha)),
    decodeUsize_encode hoff, decodeUsize_encode hupto, decodeUsize_encode hsgn]
  rfl

/-- Values `Cell` decode can produce. -/
def Cell.wf (c : Cell) : Prop :=
  c.hide_name < usizeBound ∧ EntriesWf AttributeVal.wf c.parameters ∧
    EntriesWf AttributeVal.wf c.attributes ∧
    EntriesWf (fun _ => True) c.port_directions ∧
    EntriesWf (fun conn => ∀ b ∈ conn, BitVal.wf b) c.connections

theorem cell_from_json_wf {j : Json} {c : Cell}
    (h : Cell.from_json j = some c) : c.wf := by
  cases j with
  | obj fields =>
    simp only [Cell.from_json, Option.bind_eq_bind, Option.bind_eq_some,
      Option.pure_def, Option.some.injEq] at h
    obtain ⟨hn, hhn, ct, hct, par, hpar, att, hatt, pd, hpd, conn, hconn, hc⟩ := h
    subst hc
    exact ⟨getOpt_prop (fun j a ha => decodeUsize_lt ha) usizeBound_pos hhn,
      getOpt_prop (fun j l hl =>
        decodeMap_prop (fun j a ha => attributeval_from_json_wf ha) hl) EntriesWf_nil hpar,
      getOpt_prop (fun j l hl =>
        decodeMap_prop (fun j a ha => attributeval_from_json_wf ha) hl) EntriesWf_nil hatt,
      getOpt_prop (fun j l hl =>
        decodeMap_prop (fun j a ha => trivial) hl) EntriesWf_nil hpd,
      getReq_prop (fun j l hl =>
        decodeMap_prop (fun j conn hco =>
          decodeVec_prop (fun j b hb => bitval_from_json_wf hb) hco) hl) hconn⟩
  | null => cases h
  | bool b => cases h
  | num i => cases h
  | str s => cases h
  | arr l => cases h

theorem cell_from_to {c : Cell} (hw : c.wf) :
    Cell.from_json (Cell.to_json c) = some c := by
  obtain ⟨hhn, hpar, hatt, hpd, hconn⟩ := hw
  show ((decodeUsize (encodeUsize c.hide_name)).bind fun hide_name =>
      (decodeString (Json.str c.cell_type)).bind fun cell_type =>
      (decodeMap AttributeVal.from_json
        (encodeMap AttributeVal.to_json c.parameters)).bind fun parameters =>
      (decodeMap AttributeVal.from_json
        (encodeMap AttributeVal.to_json c.attributes)).bind fun attributes =>
      (decodeMap PortDirection.from_json
        (encodeMap PortDirection.to_json c.port_directions)).bind fun port_directions =>
      (decodeMap (decodeVec BitVal.from_json)
        (encodeMap (encodeVec BitVal.to_json) c.connections)).bind fun connections =>
      some ⟨hide_name, cell_type, parameters, attributes, port_directions, connections⟩)
      = some c
  rw [decodeUsize_encode hhn, decodeString_encode,
    decodeMap_encode hpar.1 (fun p hp => attributeval_from_to (hpar.2 p hp)),
    decodeMap_encode hatt.1 (fun p hp => attributeval_from_to (hatt.2 p hp)),
    decodeMap_encode hpd.1 (fun p hp => portdirection_from_to p.2),
    decodeMap_encode hconn.1 (fun p hp =>
      decodeVec_encode (fun b hb => bitval_from_to (hconn.2 p hp b hb)))]
  rfl

/-- Values `Memory` decode can produce. -/
def Memory.wf (m : Memory) : Prop :=
  m.hide_name < usizeBound ∧ EntriesWf AttributeVal.wf m.attributes ∧
    m.width < usizeBound ∧ m.size < usizeBound ∧ m.start_offset < usizeBound

theorem memory_from_json_wf {j : Json} {m : Memory}
    (h : Memory.from_json j = some m) : m.wf := by
  cases j with
  | obj fields =>
    simp only [Memory.from_json, Option.bind_eq_bind, Option.bind_eq_some,
      Option.pure_def, Option.some.injEq] at h
    obtain ⟨hn, hhn, att, hatt, w, hw, sz, hsz, so, hso, hm⟩ := h
    subst hm
    exact ⟨getOpt_prop (fun j a ha => decodeUsize_lt ha) usizeBound_pos hhn,
      getOpt_prop (fun j l hl =>
        decodeMap_prop (fun j a ha => attributeval_from_json_wf ha) hl) EntriesWf_nil hatt,
      getReq_prop (fun j a ha => decodeUsize_lt ha) hw,
      getReq_prop (fun j a ha => decodeUsize_lt ha) hsz,
      getOpt_prop (fun j a ha => decodeUsize_lt ha) usizeBound_pos hso⟩
  | null => cases h
  | bool b => cases h
  | num i => cases h
  | str s => cases h
  | arr l => cases h

theorem memory_from_to {m : Memory} (hw : m.wf) :
    Memory.from_json (Memory.to_json m) = some m := by
  obtain ⟨hhn, hatt, hwd, hsz, hso⟩ := hw
  show ((decodeUsize (encodeUsize m.hide_name)).bind fun hide_name =>
      (decodeMap AttributeVal.from_json
        (encodeMap AttributeVal.to_json m.attributes)).bind fun attributes =>
      (decodeUsize (encodeUsize m.width)).bind fun width =>
      (decodeUsize (encodeUsize m.size)).bind fun size =>
      (decodeUsize (encodeUsize m.start_offset)).bind fun start_offset =>
      some ⟨hide_name, attributes, width, size, start_offset⟩) = some m
  rw [decodeUsize_encode hhn,
    decodeMap_encode hatt.1 (fun p hp => attributeval_from_to (hatt.2 p hp)),
    decodeUsize_encode hwd, decodeUsize_encode hsz, decodeUsize_encode hso]
  rfl

/-- Values `Netname` decode can produce. -/
def Netname.wf (n : Netname) : Prop :=
  n.hide_name < usizeBound ∧ (∀ b ∈ n.bits, b.wf) ∧ n.offset < usizeBound ∧
    n.upto < usizeBound ∧ n.signed < usizeBound ∧
    EntriesWf AttributeVal.wf n.attributes

theorem netname_from_json_wf {j : Json} {n : Netname}
    (h : Netname.from_json j = some n) : n.wf := by
  cases j with
  | obj fields =>
    simp only [Netname.from_json, Option.bind_eq_bind, Option.bind_eq_some,
      Option.pure_def, Option.some.injEq] at h
    obtain ⟨hn, hhn, bits, hbits, off, hoff, upto, hupto, sgn, hsgn, att, hatt, hnn⟩ := h
    subst hnn
    exact ⟨getOpt_prop (fun j a ha => decodeUsize_lt ha) usizeBound_pos hhn,
      getReq_prop (fun j l hl =>
        decodeVec_prop (fun j a ha => bitval_from_json_wf ha) hl) hbits,
      getOpt_prop (fun j a ha => decodeUsize_lt ha) usizeBound_pos hoff,
      getOpt_prop (fun j a ha => decodeUsize_lt ha) usizeBound_pos hupto,
      getOpt_prop (fun j a ha => decodeUsize_lt ha) usizeBound_pos hsgn,
      getOpt_prop (fun j l hl =>
        decodeMap_prop (fun j a ha => attributeval_from_json_wf ha) hl) EntriesWf_nil hatt⟩
  | null => cases h
  | bool b => cases h
  | num i => cases h
  | str s => cases h
  | arr l => cases h

theorem netname_from_to {n : Netname} (hw : n.wf) :
    Netname.from_json (Netname.to_json n) = some n := by
  obtain ⟨hhn, hbits, hoff, hupto, hsgn, hatt⟩ := hw
  show ((decodeUsize (encodeUsize n.hide_name)).bind fun hide_name =>
      (decodeVec BitVal.from_json (encodeVec BitVal.to_json n.bits)).bind fun bits =>
      (decodeUsize (encodeUsize n.offset)).bind fun offset =>
      (decodeUsize (encodeUsize n.upto)).bind fun upto =>
      (decodeUsize (encodeUsize n.signed)).bind fun signed =>
      (decodeMap AttributeVal.from_json
        (encodeMap AttributeVal.to_json n.attributes)).bind fun attributes =>
      some ⟨hide_name, bits, offset, upto, signed, attributes⟩) = some n
  rw [decodeUsize_encode hhn, decodeVec_encode (fun a ha => bitval_from_to (hbits a ha)),
    decodeUsize_encode hoff, decodeUsize_encode hupto, decodeUsize_encode hsgn,
    decodeMap_encode hatt.1 (fun p hp => attributeval_from_to (hatt.2 p hp))]
  rfl

/-- Values `Module` decode can produce. -/
def Module.wf (m : Module) : Prop :=
  EntriesWf AttributeVal.wf m.attributes ∧
    EntriesWf AttributeVal.wf m.parameter_default_values ∧
    EntriesWf Port.wf m.ports ∧ EntriesWf Cell.wf m.cells ∧
    EntriesWf Memory.wf m.memories ∧ EntriesWf Netname.wf m.netnames

theorem module_from_json_wf {j : Json} {m : Module}
    (h : Module.from_json j = some m) : m.wf := by
  cases j with
  | obj fields =>
    simp only [Module.from_json, Option.bind_eq_bind, Option.bind_eq_some,
      Option.pure_def, Option.some.injEq] at h
    obtain ⟨att, hatt, pdv, hpdv, po, hpo, ce, hce, me, hme, nn, hnn, hm⟩ := h
    subst hm
    exact ⟨getOpt_prop (fun j l hl =>
        decodeMap_prop (fun j a ha => attributeval_from_json_wf ha) hl) EntriesWf_nil hatt,
      getOpt_prop (fun j l hl =>
        decodeMap_prop (fun j a ha => attributeval_from_json_wf ha) hl) EntriesWf_nil hpdv,
      getOpt_prop (fun j l hl =>
        decodeMap_prop (fun j a ha => port_from_json_wf ha) hl) EntriesWf_nil hpo,
      getOpt_prop (fun j l hl =>
        decodeMap_prop (fun j a ha => cell_from_json_wf ha) hl) EntriesWf_nil hce,
      getOpt_prop (fun j l hl =>
        decodeMap_prop (fun j a ha => memory_from_json_wf ha) hl) EntriesWf_nil hme,
      getOpt_prop (fun j l hl =>
        decodeMap_prop (fun j a ha => netname_from_json_wf ha) hl) EntriesWf_nil hnn⟩
  | null => cases h
  | bool b => cases h
  | num i => cases h
  | str s => cases h
  | arr l => cases h

theorem module_from_to {m : Module} (hw : m.wf) :
    Module.from_json (Module.to_json m) = some m := by
  obtain ⟨hatt, hpdv, hpo, hce, hme, hnn⟩ := hw
  show ((decodeMap AttributeVal.from_json
        (encodeMap AttributeVal.to_json m.attributes)).bind fun attributes =>
      (decodeMap AttributeVal.from_json
        (encodeMap AttributeVal.to_json m.parameter_default_values)).bind fun pdv =>
      (decodeMap Port.from_json (encodeMap Port.to_json m.ports)).bind fun ports =>
      (decodeMap Cell.from_json (encodeMap Cell.to_json m.cells)).bind fun cells =>
      (decodeMap Memory.from_json (encodeMap Memory.to_json m.memories)).bind fun memories =>
      (decodeMap Netname.from_json (encodeMap Netname.to_json m.netnames)).bind fun netnames =>
      some ⟨attributes, pdv, ports, cells, memories, netnames⟩) = some m
  rw [decodeMap_encode hatt.1 (fun p hp => attributeval_from_to (hatt.2 p hp)),
    decodeMap_encode hpdv.1 (fun p hp => attributeval_from_to (hpdv.2 p hp)),
    decodeMap_encode hpo.1 (fun p hp => port_from_to (hpo.2 p hp)),
    decodeMap_encode hce.1 (fun p hp => cell_from_to (hce.2 p hp)),
    decodeMap_encode hme.1 (fun p hp => memory_from_to (hme.2 p hp)),
    decodeMap_encode hnn.1 (fun p hp => netname_from_to (hnn.2 p hp))]
  rfl

/-- Values `Netlist` decode can produce. -/
def Netlist.wf (m : Netlist) : Prop :=
  EntriesWf Module.wf m.modules

theorem netlist_from_json_wf {j : Json} {m : Netlist}
    (h : Netlist.from_json j = some m) : m.wf := by
  cases j with
  | obj fields =>
    simp only [Netlist.from_json, Option.bind_eq_bind, Option.bind_eq_some,
      Option.pure_def, Option.some.injEq] at h
    obtain ⟨cr, hcr, mods, hmods, hm⟩ := h
    subst hm
    exact getOpt_prop (fun j l hl =>
      decodeMap_prop (fun j a ha => module_from_json_wf ha) hl) EntriesWf_nil hmods
  | null => cases h
  | bool b => cases h
  | num i => cases h
  | str s => cases h
  | arr l => cases h

theorem netlist_from_to {m : Netlist} (hw : m.wf) :
    Netlist.from_json (Netlist.to_json m) = some m := by
  show ((decodeString (Json.str m.creator)).bind fun creator =>
      (decodeMap Module.from_json (encodeMap Module.to_json m.modules)).bind fun modules =>
      some ⟨creator, modules⟩) = some m
  rw [decodeString_encode,
    decodeMap_encode hw.1 (fun p hp => module_from_to (hw.2 p hp))]
  rfl

theorem specialbit_from_json_fail {s : String} (h0 : s ≠ "0") (h1 : s ≠ "1")
    (hx : s ≠ "x") (hz : s ≠ "z") : SpecialBit.from_json (Json.str s) = none := by
  cases hr : SpecialBit.from_json (Json.str s) with
  | none => rfl
  | some b =>
    exfalso
    unfold SpecialBit.from_json at hr
    split at hr
    · exact h0 (by injection (by assumption : Json.str s = Json.str "0"))
    · exact h1 (by injection (by assumption : Json.str s = Json.str "1"))
    · exact hx (by injection (by assumption : Json.str s = Json.str "x"))
    · exact hz (by injection (by assumption : Json.str s = Json.str "z"))
    · cases hr

/-- C2 counterexample: the JSON integer `2^64` is a non-negative integer, yet
`BitVal` decode rejects it instead of producing `N (2^64)` (on a 64-bit
platform `usize` overflows). -/
theorem bitval_decode_overflow_counterexample :
    BitVal.from_json (Json.num (Int.ofNat (2 ^ 64))) = none ∧
      BitVal.from_json (Json.num (Int.ofNat (2 ^ 64))) ≠ some (BitVal.N (2 ^ 64)) := by
  constructor
  · decide
  · decide

/-- C2 (amended): `BitVal` decode maps a non-negative JSON integer within
the `usize` range to `N n`; integers at or above `2^64` and negative
integers fail; the four one-character strings map to the `S` constants;
every other string and every other JSON type fails; encode reverses the
mapping. -/
theorem bitval_codec_spec :
    (∀ n : Nat, n < usizeBound →
      BitVal.from_json (Json.num (Int.ofNat n)) = some (BitVal.N n)) ∧
    (∀ n : Nat, usizeBound ≤ n → BitVal.from_json (Json.num (Int.ofNat n)) = none) ∧
    (∀ m : Nat, BitVal.from_json (Json.num (Int.negSucc m)) = none) ∧
    BitVal.from_json (Json.str "0") = some (BitVal.S SpecialBit._0) ∧
    BitVal.from_json (Json.str "1") = some (BitVal.S SpecialBit._1) ∧
    BitVal.from_json (Json.str "x") = some (BitVal.S SpecialBit.X) ∧
    BitVal.from_json (Json.str "z") = some (BitVal.S SpecialBit.Z) ∧
    (∀ s : String, s ≠ "0" → s ≠ "1" → s ≠ "x" → s ≠ "z" →
      BitVal.from_json (Json.str s) = none) ∧
    BitVal.from_json Json.null = none ∧
    (∀ b : Bool, BitVal.from_json (Json.bool b) = none) ∧
    (∀ l : List Json, BitVal.from_json (Json.arr l) = none) ∧
    (∀ l : List (String × Json), BitVal.from_json (Json.obj l) = none) ∧
    (∀ n : Nat, BitVal.to_json (BitVal.N n) = Json.num (Int.ofNat n)) ∧
    BitVal.to_json (BitVal.S SpecialBit._0) = Json.str "0" ∧
    BitVal.to_json (BitVal.S SpecialBit._1) = Json.str "1" ∧
    BitVal.to_json (BitVal.S SpecialBit.X) = Json.str "x" ∧
    BitVal.to_json (BitVal.S SpecialBit.Z) = Json.str "z" := by
  refine ⟨?_, ?_, fun m => rfl, rfl, rfl, rfl, rfl, ?_, rfl, fun b => rfl,
    fun l => rfl, fun l => rfl, fun n => rfl, rfl, rfl, rfl, rfl⟩
  · intro n h
    simp only [BitVal.from_json, decodeUsize]
    rw [if_pos h]
  · intro n h
    simp only [BitVal.from_json, decodeUsize]
    rw [if_neg (Nat.not_lt.mpr h)]
    rfl
  · intro s h0 h1 hx hz
    simp only [BitVal.from_json]
    rw [specialbit_from_json_fail h0 h1 hx hz]
    rfl

/-- C2 witness: the amended mapping at concrete inputs `5` and `"w"`. -/
theorem bitval_codec_spec_witness :
    BitVal.from_json (Json.num (Int.ofNat 5)) = some (BitVal.N 5) ∧
      BitVal.from_json (Json.str "w") = none := by
  constructor
  · exact bitval_codec_spec.1 5 (by decide)
  · exact bitval_codec_spec.2.2.2.2.2.2.2.1 "w" (by decide) (by decide) (by decide) (by decide)

/-- C3 counterexample: the bare JSON number `-1` does not decode to the `N`
variant of `AttributeVal`; the whole decode fails (`N` holds a `usize`). -/
theorem attributeval_decode_negative_counterexample :
    AttributeVal.from_json (Json.num (-1)) = none := by decide

/-- C3 (amended): `AttributeVal` decode maps a JSON number that is a
non-negative integer within the `usize` range to `N`; other numbers fail;
every string decodes verbatim to `S`; every other JSON type fails. -/
theorem attributeval_codec_spec :
    (∀ n : Nat, n < usizeBound →
      AttributeVal.from_json (Json.num (Int.ofNat n)) = some (AttributeVal.N n)) ∧
    (∀ n : Nat, usizeBound ≤ n → AttributeVal.from_json (Json.num (Int.ofNat n)) = none) ∧
    (∀ m : Nat, AttributeVal.from_json (Json.num (Int.negSucc m)) = none) ∧
    (∀ s : String, AttributeVal.from_json (Json.str s) = some (AttributeVal.S s)) ∧
    AttributeVal.from_json Json.null = none ∧
    (∀ b : Bool, AttributeVal.from_json (Json.bool b) = none) ∧
    (∀ l : List Json, AttributeVal.from_json (Json.arr l) = none) ∧
    (∀ l : List (String × Json), AttributeVal.from_json (Json.obj l) = none) := by
  refine ⟨?_, ?_, fun m => rfl, fun s => rfl, rfl, fun b => rfl, fun l => rfl, fun l => rfl⟩
  · intro n h
    simp only [AttributeVal.from_json, decodeUsize]
    rw [if_pos h]
  · intro n h
    simp only [AttributeVal.from_json, decodeUsize]
    rw [if_neg (Nat.not_lt.mpr h)]
    rfl

/-- C3 witness: the amended mapping at concrete inputs `123` and a long
binary string. -/
theorem attributeval_codec_spec_witness :
    AttributeVal.from_json (Json.num (Int.ofNat 123)) = some (AttributeVal.N 123) ∧
      AttributeVal.from_json (Json.str "00000000000000001010010001010101")
        = some (AttributeVal.S "00000000000000001010010001010101") := by
  constructor
  · exact attributeval_codec_spec.1 123 (by decide)
  · exact attributeval_codec_spec.2.2.2.1 "00000000000000001010010001010101"

theorem binDigits_eq (cs : List Char) :
    ∀ acc : Nat, binDigits cs acc =
      if ∀ c ∈ cs, c = '0' ∨ c = '1'
      then some (cs.foldl (fun a c => 2 * a + (if c = '1' then 1 else 0)) acc)
      else none := by
  induction cs with
  | nil =>
    intro acc
    simp [binDigits]
  | cons c rest ih =>
    intro acc
    by_cases hc0 : c = '0'
    · subst hc0
      simp [binDigits, ih, List.forall_mem_cons]
    · by_cases hc1 : c = '1'
      · subst hc1
        simp [binDigits, ih, List.forall_mem_cons]
      · simp [binDigits, hc0, hc1, List.forall_mem_cons]

theorem from_str_tail {ds : List Char} (hne : ds ≠ []) {v : Nat} :
    ((if ds.isEmpty then none
      else match binDigits ds 0 with
        | none => none
        | some w => if w < usizeBound then some w else none) = some v) ↔
      ((∀ c ∈ ds, c = '0' ∨ c = '1') ∧
        ds.foldl (fun a c => 2 * a + (if c = '1' then 1 else 0)) 0 = v ∧
        v < usizeBound) := by
  rw [if_neg (by simpa [List.isEmpty_iff] using hne)]
  rw [binDigits_eq]
  by_cases hall : ∀ c ∈ ds, c = '0' ∨ c = '1'
  · rw [if_pos hall]
    show (if ds.foldl (fun a c => 2 * a + (if c = '1' then 1 else 0)) 0 < usizeBound
      then some (ds.foldl (fun a c => 2 * a + (if c = '1' then 1 else 0)) 0)
      else none) = some v ↔ _
    by_cases hv : ds.foldl (fun a c => 2 * a + (if c = '1' then 1 else 0)) 0 < usizeBound
    · rw [if_pos hv]
      constructor
      · intro h
        cases h
        exact ⟨hall, rfl, hv⟩
      · intro h
        rw [h.2.1]
    · rw [if_neg hv]
      constructor
      · intro h
        cases h
      · intro h
        exact absurd (h.2.1 ▸ h.2.2) hv
  · rw [if_neg hall]
    constructor
    · intro h
      cases h
    · intro h
      exact absurd h.1 hall

theorem from_str_radix_2_eq_some {s : String} {v : Nat} :
    from_str_radix_2 s = some v ↔
      ∃ ds : List Char, (s.data = '+' :: ds ∨ s.data = ds) ∧ ds ≠ [] ∧
        (∀ c ∈ ds, c = '0' ∨ c = '1') ∧
        ds.foldl (fun a c => 2 * a + (if c = '1' then 1 else 0)) 0 = v ∧
        v < usizeBound := by
  unfold from_str_radix_2
  cases hd : s.data with
  | nil =>
    constructor
    · intro h
      cases h
    · rintro ⟨ds, hds, hne, -, -, -⟩
      rcases hds with h | h
      · cases h
      · exact (hne h.symm).elim
  | cons c rest =>
    by_cases hc : c = '+'
    · subst hc
      show (if rest.isEmpty then none
          else match binDigits rest 0 with
            | none => none
            | some w => if w < usizeBound then some w else none) = some v ↔ _
      cases rest with
      | nil =>
        constructor
        · intro h
          cases h
        · rintro ⟨ds, hds, hne, hbin, -, -⟩
          rcases hds with h | h
          · injection h with h1 h2
            exact (hne h2.symm).elim
          · have hmem : '+' ∈ ds := by
              rw [← h]
              exact List.mem_cons_self _ _
            rcases hbin _ hmem with h0 | h0
            · exact absurd h0 (by decide)
            · exact absurd h0 (by decide)
      | cons d rest2 =>
        rw [from_str_tail (List.cons_ne_nil d rest2)]
        constructor
        · intro h
          exact ⟨d :: rest2, Or.inl rfl, List.cons_ne_nil d rest2, h⟩
        · rintro ⟨ds, hds, hne, hbin, hfold, hv⟩
          rcases hds with h | h
          · injection h with h1 h2
            subst h2
            exact ⟨hbin, hfold, hv⟩
          · have hmem : '+' ∈ ds := by
              rw [← h]
              exact List.mem_cons_self _ _
            rcases hbin _ hmem with h0 | h0
            · exact absurd h0 (by decide)
            · exact absurd h0 (by decide)
    · simp only [if_neg hc]
      rw [from_str_tail (List.cons_ne_nil c rest)]
      constructor
      · intro h
        exact ⟨c :: rest, Or.inr rfl, List.cons_ne_nil c rest, h⟩
      · rintro ⟨ds, hds, hne, hbin, hfold, hv⟩
        rcases hds with h | h
        · injection h with h'
          exact absurd h' hc
        · subst h
          exact ⟨hbin, hfold, hv⟩

theorem string_data_ne_nil {s : String} (h : s ≠ "") : s.data ≠ [] := by
  intro hd
  apply h
  cases s with
  | mk data =>
    cases hd
    rfl

theorem string_length_ne_zero {s : String} (h : s ≠ "") : ¬ s.length = 0 := fun h0 =>
  string_data_ne_nil h (List.length_eq_zero.mp (by rw [String.length_data]; exact h0))

theorem to_number_S_ne_empty {s : String} (h : s ≠ "") :
    (AttributeVal.S s).to_number = from_str_radix_2 s := by
  simp only [AttributeVal.to_number]
  rw [if_neg (string_length_ne_zero h)]

/-- C4 counterexample: `"+101"` contains the character `'+'`, which is
neither `'0'` nor `'1'`, yet `to_number` returns `some 5` rather than the
failure the claim requires (`usize::from_str_radix` accepts one leading
sign character). -/
theorem to_number_plus_counterexample :
    (AttributeVal.S "+101").to_number = some 5 ∧
      '+' ∈ "+101".data ∧ ¬('+' = '0' ∨ '+' = '1') := by
  refine ⟨by decide, by decide, by decide⟩

/-- C4 (amended): `to_number` returns `some n` on `N n` and `some 0` on
`S ""`; on a non-empty string it parses a base-2 unsigned literal the way
`usize::from_str_radix(s, 2)` does — an optional single leading `'+'`
followed by one or more binary digits — succeeding with exactly the binary
value of the digits when every remaining character is `'0'`/`'1'` and the
value fits below `2^64`, and failing otherwise (any other character, sign
alone, or overflow). -/
theorem to_number_spec :
    (∀ n : Nat, (AttributeVal.N n).to_number = some n) ∧
    ((AttributeVal.S "").to_number = some 0) ∧
    (∀ (s : String) (v : Nat), s ≠ "" →
      ((AttributeVal.S s).to_number = some v ↔
        ∃ ds : List Char, (s.data = '+' :: ds ∨ s.data = ds) ∧ ds ≠ [] ∧
          (∀ c ∈ ds, c = '0' ∨ c = '1') ∧
          ds.foldl (fun a c => 2 * a + (if c = '1' then 1 else 0)) 0 = v ∧
          v < usizeBound)) ∧
    (AttributeVal.S "101").to_number = some 5 ∧
    (AttributeVal.S "12").to_number = none := by
  refine ⟨fun n => rfl, rfl, ?_, by decide, by decide⟩
  intro s v h
  rw [to_number_S_ne_empty h, from_str_radix_2_eq_some]

/-- C4 witness: the amended parse at the concrete inputs `"110"` and `N 7`. -/
theorem to_number_spec_witness :
    (AttributeVal.S "110").to_number = some 6 ∧ (AttributeVal.N 7).to_number = some 7 := by
  constructor
  · exact (to_number_spec.2.2.1 "110" 6 (by decide)).mpr
      ⟨['1', '1', '0'], Or.inr rfl, by decide, by decide, by decide, by decide⟩
  · exact to_number_spec.1 7

/-- C5: `to_string_if_string` is `none` on `N`, on the empty string, and on
any non-empty string drawn entirely from `{0,1,x,z}`; on any other string
it returns the string, with exactly one trailing space removed when the
final character is a space. -/
theorem to_string_if_string_spec :
    (∀ n : Nat, (AttributeVal.N n).to_string_if_string = none) ∧
    ((AttributeVal.S "").to_string_if_string = none) ∧
    (∀ s : String, s ≠ "" → (∀ c ∈ s.data, c = '0' ∨ c = '1' ∨ c = 'x' ∨ c = 'z') →
      (AttributeVal.S s).to_string_if_string = none) ∧
    (∀ s : String, (∃ c, c ∈ s.data ∧ ¬(c = '0' ∨ c = '1' ∨ c = 'x' ∨ c = 'z')) →
      (AttributeVal.S s).to_string_if_string =
        if s.data.getLast? = some ' ' then some (String.mk s.data.dropLast) else some s) ∧
    ((AttributeVal.S "01x1z0").to_string_if_string = none) ∧
    ((AttributeVal.S "hello ").to_string_if_string = some "hello") ∧
    ((AttributeVal.S "hello").to_string_if_string = some "hello") := by
  refine ⟨fun n => rfl, rfl, ?_, ?_, by decide, by decide, by decide⟩
  · intro s hne hall
    simp only [AttributeVal.to_string_if_string]
    rw [if_neg (string_length_ne_zero hne), if_pos]
    rw [List.all_eq_true]
    intro c hc
    have hcp := hall c hc
    unfold isBitChar
    rcases hcp with h | h | h | h <;> simp [h]
  · intro s hbad
    obtain ⟨c, hc, hcbad⟩ := hbad
    have hne : s ≠ "" := by
      intro h
      subst h
      cases hc
    simp only [AttributeVal.to_string_if_string]
    rw [if_neg (string_length_ne_zero hne), if_neg]
    intro hall
    rw [List.all_eq_true] at hall
    have hb := hall c hc
    unfold isBitChar at hb
    simp only [decide_eq_true_eq, Bool.or_eq_true] at hb
    tauto

/-- C5 witness: the general branches at the concrete inputs `"ab "` and
`"0z01"`. -/
theorem to_string_if_string_spec_witness :
    (AttributeVal.S "ab ").to_string_if_string = some "ab" ∧
      (AttributeVal.S "0z01").to_string_if_string = none := by
  constructor
  · exact (to_string_if_string_spec.2.2.2.1 "ab " ⟨'a', by decide, by decide⟩).trans
      (by decide)
  · exact to_string_if_string_spec.2.2.1 "0z01" (by decide) (by decide)

/-- C10: the checked model of `to_string_if_string` (where the internal
`unwrap` of the last byte is an explicit `error`) never errors: it returns
`ok` of the pure accessor's result on every `AttributeVal`, so the panic
branch is unreachable. -/
theorem to_string_if_string_no_panic (a : AttributeVal) :
    to_string_if_string_checked a = Except.ok a.to_string_if_string := by
  cases a with
  | N n => rfl
  | S s =>
    simp only [to_string_if_string_checked, AttributeVal.to_string_if_string]
    by_cases h0 : s.length = 0
    · rw [if_pos h0, if_pos h0]
    · rw [if_neg h0, if_neg h0]
      by_cases hall : s.data.all isBitChar
      · rw [if_pos hall, if_pos hall]
      · rw [if_neg hall, if_neg hall]
        have hne : s.data ≠ [] := by
          intro hd
          apply h0
          rw [← String.length_data, hd]
          rfl
        cases hl : s.data.getLast? with
        | none => exact absurd (List.getLast?_eq_none_iff.mp hl) hne
        | some c =>
          show (if c = ' ' then Except.ok (some (String.mk s.data.dropLast))
              else Except.ok (some s) : Except Unit (Option String))
            = Except.ok (if some c = some ' ' then some (String.mk s.data.dropLast)
              else some s)
          by_cases hc : c = ' '
          · subst hc
            rw [if_pos rfl, if_pos rfl]
          · rw [if_neg hc, if_neg (fun hs => hc (Option.some.inj hs))]

/-- C7: a `Netlist::new "integration test"` serializes to exactly the
compact JSON text with `creator` first, then `modules`. -/
theorem new_to_string_exact :
    (Netlist.new "integration test").to_string
      = "\x7b\"creator\":\"integration test\",\"modules\":\x7b\x7d\x7d" := by
  decide

/-- C1: round-trip — any JSON document that decodes to a `Netlist` decodes
to the same `Netlist` again after encoding (the byte/text layer is the
external JSON library, modelled as the identity on JSON trees). -/
theorem roundtrip_decode_encode (j : Json) (m : Netlist)
    (h : Netlist.from_json j = some m) :
    Netlist.from_json (Netlist.to_json m) = some m :=
  netlist_from_to (netlist_from_json_wf h)

/-- C1 witness: the round trip on a document with one module, one cell,
special-constant and numeric bits. -/
theorem roundtrip_decode_encode_witness :
    Netlist.from_json (Netlist.to_json (Netlist.mk ""
      [("m", Module.mk [] [] [] [("c", Cell.mk 0 "t" [] [] []
        [("IN", [BitVal.S SpecialBit.X, BitVal.N 0])])] [] [])]))
      = some (Netlist.mk ""
      [("m", Module.mk [] [] [] [("c", Cell.mk 0 "t" [] [] []
        [("IN", [BitVal.S SpecialBit.X, BitVal.N 0])])] [] [])]) :=
  roundtrip_decode_encode
    (Json.obj [("modules", Json.obj [("m",
      Json.obj [("cells", Json.obj [("c", Json.obj [("type", Json.str "t"),
      ("connections", Json.obj [("IN", Json.arr [Json.str "x", Json.num 0])])])])])])])
    _ (by decide)

/-- C8: a numeric field whose value exceeds the platform unsigned range
(`2^64` on 64-bit) fails decode — for the scalar `usize` decoder, for
`BitVal` and `AttributeVal`, for a `Memory` width, and for a whole
document containing such a width. -/
theorem numeric_overflow_fails :
    (∀ n : Nat, usizeBound ≤ n → decodeUsize (Json.num (Int.ofNat n)) = none) ∧
    BitVal.from_json (Json.num (Int.ofNat usizeBound)) = none ∧
    AttributeVal.from_json (Json.num (Int.ofNat usizeBound)) = none ∧
    Memory.from_json (Json.obj [("width", Json.num (Int.ofNat usizeBound)),
      ("size", Json.num 4)]) = none ∧
    Netlist.from_json (Json.obj [("modules", Json.obj [("m", Json.obj [("memories",
      Json.obj [("mem", Json.obj [("width", Json.num (Int.ofNat usizeBound)),
      ("size", Json.num 4)])])])])]) = none := by
  refine ⟨?_, by decide, by decide, by decide, by decide⟩
  intro n h
  simp only [decodeUsize]
  rw [if_neg (Nat.not_lt.mpr h)]

/-- C8 witness: the general overflow rule applied at `2^64` itself. -/
theorem numeric_overflow_fails_witness :
    decodeUsize (Json.num (Int.ofNat usizeBound)) = none :=
  numeric_overflow_fails.1 usizeBound (Nat.le_refl usizeBound)

theorem lookupField_insert {pre post : List (String × Json)} {k name : String}
    (h : k ≠ name) (v : Json) :
    lookupField (pre ++ (k, v) :: post) name = lookupField (pre ++ post) name := by
  unfold lookupField
  have heq : (pre ++ (k, v) :: post).filter (fun p => p.1 == name)
      = (pre ++ post).filter (fun p => p.1 == name) := by
    rw [List.filter_append, List.filter_append, List.filter_cons]
    simp [h]
  rw [heq]

theorem getOpt_insert {k name : String} (h : k ≠ name)
    (pre post : List (String × Json)) (v : Json) (dec : Json → Option α) (dflt : α) :
    getOpt (pre ++ (k, v) :: post) name dec dflt = getOpt (pre ++ post) name dec dflt := by
  unfold getOpt
  rw [lookupField_insert h]

theorem getReq_insert {k name : String} (h : k ≠ name)
    (pre post : List (String × Json)) (v : Json) (dec : Json → Option α) :
    getReq (pre ++ (k, v) :: post) name dec = getReq (pre ++ post) name dec := by
  unfold getReq
  rw [lookupField_insert h]

/-- C9: an extra key not named in the schema, inserted anywhere into the
top-level object or into a `Module`/`Port`/`Cell`/`Memory`/`Netname`
object, leaves the decode result unchanged (in particular a successful
decode still succeeds with the same value). -/
theorem unknown_keys_ignored :
    (∀ (pre post : List (String × Json)) (k : String) (v : Json),
      k ∉ (["creator", "modules"] : List String) →
      Netlist.from_json (Json.obj (pre ++ (k, v) :: post))
        = Netlist.from_json (Json.obj (pre ++ post))) ∧
    (∀ (pre post : List (String × Json)) (k : String) (v : Json),
      k ∉ (["attributes", "parameter_default_values", "ports", "cells",
            "memories", "netnames"] : List String) →
      Module.from_json (Json.obj (pre ++ (k, v) :: post))
        = Module.from_json (Json.obj (pre ++ post))) ∧
    (∀ (pre post : List (String × Json)) (k : String) (v : Json),
      k ∉ (["direction", "bits", "offset", "upto", "signed"] : List String) →
      Port.from_json (Json.obj (pre ++ (k, v) :: post))
        = Port.from_json (Json.obj (pre ++ post))) ∧
    (∀ (pre post : List (String × Json)) (k : String) (v : Json),
      k ∉ (["hide_name", "type", "parameters", "attributes", "port_directions",
            "connections"] : List String) →
      Cell.from_json (Json.obj (pre ++ (k, v) :: post))
        = Cell.from_json (Json.obj (pre ++ post))) ∧
    (∀ (pre post : List (String × Json)) (k : String) (v : Json),
      k ∉ (["hide_name", "attributes", "width", "size", "start_offset"] : List String) →
      Memory.from_json (Json.obj (pre ++ (k, v) :: post))
        = Memory.from_json (Json.obj (pre ++ post))) ∧
    (∀ (pre post : List (String × Json)) (k : String) (v : Json),
      k ∉ (["hide_name", "bits", "offset", "upto", "signed", "attributes"] : List String) →
      Netname.from_json (Json.obj (pre ++ (k, v) :: post))
        = Netname.from_json (Json.obj (pre ++ post))) := by
  refine ⟨?_, ?_, ?_, ?_, ?_, ?_⟩ <;>
    intro pre post k v hk <;>
    simp only [List.mem_cons, List.not_mem_nil, or_false, not_or] at hk
  · obtain ⟨h1, h2⟩ := hk
    simp only [Netlist.from_json]
    rw [getOpt_insert h1, getOpt_insert h2]
  · obtain ⟨h1, h2, h3, h4, h5, h6⟩ := hk
    simp only [Module.from_json]
    rw [getOpt_insert h1, getOpt_insert h2, getOpt_insert h3, getOpt_insert h4,
      getOpt_insert h5, getOpt_insert h6]
  · obtain ⟨h1, h2, h3, h4, h5⟩ := hk
    simp only [Port.from_json]
    rw [getReq_insert h1, getReq_insert h2, getOpt_insert h3, getOpt_insert h4,
      getOpt_insert h5]
  · obtain ⟨h1, h2, h3, h4, h5, h6⟩ := hk
    simp only [Cell.from_json]
    rw [getOpt_insert h1, getReq_insert h2, getOpt_insert h3, getOpt_insert h4,
      getOpt_insert h5, getReq_insert h6]
  · obtain ⟨h1, h2, h3, h4, h5⟩ := hk
    simp only [Memory.from_json]
    rw [getOpt_insert h1, getOpt_insert h2, getReq_insert h3, getReq_insert h4,
      getOpt_insert h5]
  · obtain ⟨h1, h2, h3, h4, h5, h6⟩ := hk
    simp only [Netname.from_json]
    rw [getOpt_insert h1, getReq_insert h2, getOpt_insert h3, getOpt_insert h4,
      getOpt_insert h5, getOpt_insert h6]

/-- C9 witness: a concrete unknown key at the top level. -/
theorem unknown_keys_ignored_witness :
    Netlist.from_json (Json.obj [("extra", Json.null)])
      = Netlist.from_json (Json.obj []) := by
  have h := unknown_keys_ignored.1 [] [] "extra" Json.null (by decide)
  simpa using h

theorem lookupField_absent {fields : List (String × Json)} {name : String}
    (h : ∀ p ∈ fields, p.1 ≠ name) : lookupField fields name = some none := by
  unfold lookupField
  have heq : fields.filter (fun p => p.1 == name) = [] := by
    rw [List.filter_eq_nil_iff]
    intro p hp
    simpa using h p hp
  rw [heq]

theorem getOpt_absent {fields : List (String × Json)} {name : String}
    (h : ∀ p ∈ fields, p.1 ≠ name) (dec : Json → Option α) (dflt : α) :
    getOpt fields name dec dflt = some dflt := by
  unfold getOpt
  rw [lookupField_absent h]

theorem getReq_absent {fields : List (String × Json)} {name : String}
    (h : ∀ p ∈ fields, p.1 ≠ name) (dec : Json → Option α) :
    getReq fields name dec = none := by
  unfold getReq
  rw [lookupField_absent h]

theorem getOpt_absent_eq {dec : Json → Option α} {fields : List (String × Json)}
    {name : String} {dflt a : α} (habs : ∀ q ∈ fields, q.1 ≠ name)
    (h : getOpt fields name dec dflt = some a) : a = dflt := by
  rw [getOpt_absent habs] at h
  cases h
  rfl

theorem netlist_creator_default {fields : List (String × Json)} {x : Netlist}
    (habs : ∀ q ∈ fields, q.1 ≠ "creator")
    (h : Netlist.from_json (Json.obj fields) = some x) : x.creator = "" := by
  simp only [Netlist.from_json, Option.bind_eq_bind, Option.bind_eq_some,
    Option.pure_def, Option.some.injEq] at h
  obtain ⟨cr, hcr, mods, hmods, hm⟩ := h
  subst hm
  exact getOpt_absent_eq habs hcr

theorem netlist_modules_default {fields : List (String × Json)} {x : Netlist}
    (habs : ∀ q ∈ fields, q.1 ≠ "modules")
    (h : Netlist.from_json (Json.obj fields) = some x) : x.modules = [] := by
  simp only [Netlist.from_json, Option.bind_eq_bind, Option.bind_eq_some,
    Option.pure_def, Option.some.injEq] at h
  obtain ⟨cr, hcr, mods, hmods, hm⟩ := h
  subst hm
  exact getOpt_absent_eq habs hmods

theorem module_attributes_default {fields : List (String × Json)} {x : Module}
    (habs : ∀ q ∈ fields, q.1 ≠ "attributes")
    (h : Module.from_json (Json.obj fields) = some x) : x.attributes = [] := by
  simp only [Module.from_json, Option.bind_eq_bind, Option.bind_eq_some,
    Option.pure_def, Option.some.injEq] at h
  obtain ⟨att, hatt, pdv, hpdv, po, hpo, ce, hce, me, hme, nn, hnn, hm⟩ := h
  subst hm
  exact getOpt_absent_eq habs hatt

theorem module_parameter_default_values_default {fields : List (String × Json)} {x : Module}
    (habs : ∀ q ∈ fields, q.1 ≠ "parameter_default_values")
    (h : Module.from_json (Json.obj fields) = some x) : x.parameter_default_values = [] := by
  simp only [Module.from_json, Option.bind_eq_bind, Option.bind_eq_some,
    Option.pure_def, Option.some.injEq] at h
  obtain ⟨att, hatt, pdv, hpdv, po, hpo, ce, hce, me, hme, nn, hnn, hm⟩ := h
  subst hm
  exact getOpt_absent_eq habs hpdv

theorem module_ports_default {fields : List (String × Json)} {x : Module}
    (habs : ∀ q ∈ fields, q.1 ≠ "ports")
    (h : Module.from_json (Json.obj fields) = some x) : x.ports = [] := by
  simp only [Module.from_json, Option.bind_eq_bind, Option.bind_eq_some,
    Option.pure_def, Option.some.injEq] at h
  obtain ⟨att, hatt, pdv, hpdv, po, hpo, ce, hce, me, hme, nn, hnn, hm⟩ := h
  subst hm
  exact getOpt_absent_eq habs hpo

theorem module_cells_default {fields : List (String × Json)} {x : Module}
    (habs : ∀ q ∈ fields, q.1 ≠ "cells")
    (h : Module.from_json (Json.obj fields) = some x) : x.cells = [] := by
  simp only [Module.from_json, Option.bind_eq_bind, Option.bind_eq_some,
    Option.pure_def, Option.some.injEq] at h
  obtain ⟨att, hatt, pdv, hpdv, po, hpo, ce, hce, me, hme, nn, hnn, hm⟩ := h
  subst hm
  exact getOpt_absent_eq habs hce

theorem module_memories_default {fields : List (String × Json)} {x : Module}
    (habs : ∀ q ∈ fields, q.1 ≠ "memories")
    (h : Module.from_json (Json.obj fields) = some x) : x.memories = [] := by
  simp only [Module.from_json, Option.bind_eq_bind, Option.bind_eq_some,
    Option.pure_def, Option.some.injEq] at h
  obtain ⟨att, hatt, pdv, hpdv, po, hpo, ce, hce, me, hme, nn, hnn, hm⟩ := h
  subst hm
  exact getOpt_absent_eq habs hme

theorem module_netnames_default {fields : List (String × Json)} {x : Module}
    (habs : ∀ q ∈ fields, q.1 ≠ "netnames")
    (h : Module.from_json (Json.obj fields) = some x) : x.netnames = [] := by
  simp only [Module.from_json, Option.bind_eq_bind, Option.bind_eq_some,
    Option.pure_def, Option.some.injEq] at h
  obtain ⟨att, hatt, pdv, hpdv, po, hpo, ce, hce, me, hme, nn, hnn, hm⟩ := h
  subst hm
  exact getOpt_absent_eq habs hnn

theorem port_offset_default {fields : List (String × Json)} {x : Port}
    (habs : ∀ q ∈ fields, q.1 ≠ "offset")
    (h : Port.from_json (Json.obj fields) = some x) : x.offset = 0 := by
  simp only [Port.from_json, Option.bind_eq_bind, Option.bind_eq_some,
    Option.pure_def, Option.some.injEq] at h
  obtain ⟨d, hd, bits, hbits, off, hoff, upto, hupto, sgn, hsgn, hp⟩ := h
  subst hp
  exact getOpt_absent_eq habs hoff

theorem port_upto_default {fields : List (String × Json)} {x : Port}
    (habs : ∀ q ∈ fields, q.1 ≠ "upto")
    (h : Port.from_json (Json.obj fields) = some x) : x.upto = 0 := by
  simp only [Port.from_json, Option.bind_eq_bind, Option.bind_eq_some,
    Option.pure_def, Option.some.injEq] at h
  obtain ⟨d, hd, bits, hbits, off, hoff, upto, hupto, sgn, hsgn, hp⟩ := h
  subst hp
  exact getOpt_absent_eq habs hupto

theorem port_signed_default {fields : List (String × Json)} {x : Port}
    (habs : ∀ q ∈ fields, q.1 ≠ "signed")
    (h : Port.from_json (Json.obj fields) = some x) : x.signed = 0 := by
  simp only [Port.from_json, Option.bind_eq_bind, Option.bind_eq_some,
    Option.pure_def, Option.some.injEq] at h
  obtain ⟨d, hd, bits, hbits, off, hoff, upto, hupto, sgn, hsgn, hp⟩ := h
  subst hp
  exact getOpt_absent_eq habs hsgn

theorem cell_hide_name_default {fields : List (String × Json)} {x : Cell}
    (habs : ∀ q ∈ fields, q.1 ≠ "hide_name")
    (h : Cell.from_json (Json.obj fields) = some x) : x.hide_name = 0 := by
  simp only [Cell.from_json, Option.bind_eq_bind, Option.bind_eq_some,
    Option.pure_def, Option.some.injEq] at h
  obtain ⟨hn, hhn, ct, hct, par, hpar, att, hatt, pd, hpd, conn, hconn, hc⟩ := h
  subst hc
  exact getOpt_absent_eq habs hhn

theorem cell_parameters_default {fields : List (String × Json)} {x : Cell}
    (habs : ∀ q ∈ fields, q.1 ≠ "parameters")
    (h : Cell.from_json (Json.obj fields) = some x) : x.parameters = [] := by
  simp only [Cell.from_json, Option.bind_eq_bind, Option.bind_eq_some,
    Option.pure_def, Option.some.injEq] at h
  obtain ⟨hn, hhn, ct, hct, par, hpar, att, hatt, pd, hpd, conn, hconn, hc⟩ := h
  subst hc
  exact getOpt_absent_eq habs hpar

theorem cell_attributes_default {fields : List (String × Json)} {x : Cell}
    (habs : ∀ q ∈ fields, q.1 ≠ "attributes")
    (h : Cell.from_json (Json.obj fields) = some x) : x.attributes = [] := by
  simp only [Cell.from_json, Option.bind_eq_bind, Option.bind_eq_some,
    Option.pure_def, Option.some.injEq] at h
  obtain ⟨hn, hhn, ct, hct, par, hpar, att, hatt, pd, hpd, conn, hconn, hc⟩ := h
  subst hc
  exact getOpt_absent_eq habs hatt

theorem cell_port_directions_default {fields : List (String × Json)} {x : Cell}
    (habs : ∀ q ∈ fields, q.1 ≠ "port_directions")
    (h : Cell.from_json (Json.obj fields) = some x) : x.port_directions = [] := by
  simp only [Cell.from_json, Option.bind_eq_bind, Option.bind_eq_some,
    Option.pure_def, Option.some.injEq] at h
  obtain ⟨hn, hhn, ct, hct, par, hpar, att, hatt, pd, hpd, conn, hconn, hc⟩ := h
  subst hc
  exact getOpt_absent_eq habs hpd

theorem memory_hide_name_default {fields : List (String × Json)} {x : Memory}
    (habs : ∀ q ∈ fields, q.1 ≠ "hide_name")
    (h : Memory.from_json (Json.obj fields) = some x) : x.hide_name = 0 := by
  simp only [Memory.from_json, Option.bind_eq_bind, Option.bind_eq_some,
    Option.pure_def, Option.some.injEq] at h
  obtain ⟨hn, hhn, att, hatt, w, hw, sz, hsz, so, hso, hm⟩ := h
  subst hm
  exact getOpt_absent_eq habs hhn

theorem memory_attributes_default {fields : List (String × Json)} {x : Memory}
    (habs : ∀ q ∈ fields, q.1 ≠ "attributes")
    (h : Memory.from_json (Json.obj fields) = some x) : x.attributes = [] := by
  simp only [Memory.from_json, Option.bind_eq_bind, Option.bind_eq_some,
    Option.pure_def, Option.some.injEq] at h
  obtain ⟨hn, hhn, att, hatt, w, hw, sz, hsz, so, hso, hm⟩ := h
  subst hm
  exact getOpt_absent_eq habs hatt

theorem memory_start_offset_default {fields : List (String × Json)} {x : Memory}
    (habs : ∀ q ∈ fields, q.1 ≠ "start_offset")
    (h : Memory.from_json (Json.obj fields) = some x) : x.start_offset = 0 := by
  simp only [Memory.from_json, Option.bind_eq_bind, Option.bind_eq_some,
    Option.pure_def, Option.some.injEq] at h
  obtain ⟨hn, hhn, att, hatt, w, hw, sz, hsz, so, hso, hm⟩ := h
  subst hm
  exact getOpt_absent_eq habs hso

theorem netname_hide_name_default {fields : List (String × Json)} {x : Netname}
    (habs : ∀ q ∈ fields, q.1 ≠ "hide_name")
    (h : Netname.from_json (Json.obj fields) = some x) : x.hide_name = 0 := by
  simp only [Netname.from_json, Option.bind_eq_bind, Option.bind_eq_some,
    Option.pure_def, Option.some.injEq] at h
  obtain ⟨hn, hhn, bits, hbits, off, hoff, upto, hupto, sgn, hsgn, att, hatt, hnn⟩ := h
  subst hnn
  exact getOpt_absent_eq habs hhn

theorem netname_offset_default {fields : List (String × Json)} {x : Netname}
    (habs : ∀ q ∈ fields, q.1 ≠ "offset")
    (h : Netname.from_json (Json.obj fields) = some x) : x.offset = 0 := by
  simp only [Netname.from_json, Option.bind_eq_bind, Option.bind_eq_some,
    Option.pure_def, Option.some.injEq] at h
  obtain ⟨hn, hhn, bits, hbits, off, hoff, upto, hupto, sgn, hsgn, att, hatt, hnn⟩ := h
  subst hnn
  exact getOpt_absent_eq habs hoff

theorem netname_upto_default {fields : List (String × Json)} {x : Netname}
    (habs : ∀ q ∈ fields, q.1 ≠ "upto")
    (h : Netname.from_json (Json.obj fields) = some x) : x.upto = 0 := by
  simp only [Netname.from_json, Option.bind_eq_bind, Option.bind_eq_some,
    Option.pure_def, Option.some.injEq] at h
  obtain ⟨hn, hhn, bits, hbits, off, hoff, upto, hupto, sgn, hsgn, att, hatt, hnn⟩ := h
  subst hnn
  exact getOpt_absent_eq habs hupto

theorem netname_signed_default {fields : List (String × Json)} {x : Netname}
    (habs : ∀ q ∈ fields, q.1 ≠ "signed")
    (h : Netname.from_json (Json.obj fields) = some x) : x.signed = 0 := by
  simp only [Netname.from_json, Option.bind_eq_bind, Option.bind_eq_some,
    Option.pure_def, Option.some.injEq] at h
  obtain ⟨hn, hhn, bits, hbits, off, hoff, upto, hupto, sgn, hsgn, att, hatt, hnn⟩ := h
  subst hnn
  exact getOpt_absent_eq habs hsgn

theorem netname_attributes_default {fields : List (String × Json)} {x : Netname}
    (habs : ∀ q ∈ fields, q.1 ≠ "attributes")
    (h : Netname.from_json (Json.obj fields) = some x) : x.attributes = [] := by
  simp only [Netname.from_json, Option.bind_eq_bind, Option.bind_eq_some,
    Option.pure_def, Option.some.injEq] at h
  obtain ⟨hn, hhn, bits, hbits, off, hoff, upto, hupto, sgn, hsgn, att, hatt, hnn⟩ := h
  subst hnn
  exact getOpt_absent_eq habs hatt

theorem port_direction_required {fields : List (String × Json)}
    (habs : ∀ q ∈ fields, q.1 ≠ "direction") : Port.from_json (Json.obj fields) = none := by
  simp only [Port.from_json]
  rw [getReq_absent habs]
  rfl

theorem port_bits_required {fields : List (String × Json)}
    (habs : ∀ q ∈ fields, q.1 ≠ "bits") : Port.from_json (Json.obj fields) = none := by
  simp only [Port.from_json]
  rw [getReq_absent habs]
  cases getReq fields "direction" PortDirection.from_json with
  | none => rfl
  | some a0 =>
    rfl

theorem cell_type_required {fields : List (String × Json)}
    (habs : ∀ q ∈ fields, q.1 ≠ "type") : Cell.from_json (Json.obj fields) = none := by
  simp only [Cell.from_json]
  rw [getReq_absent habs]
  cases getOpt fields "hide_name" decodeUsize 0 with
  | none => rfl
  | some a0 =>
    rfl

theorem cell_connections_required {fields : List (String × Json)}
    (habs : ∀ q ∈ fields, q.1 ≠ "connections") : Cell.from_json (Json.obj fields) = none := by
  simp only [Cell.from_json]
  rw [getReq_absent habs]
  cases getOpt fields "hide_name" decodeUsize 0 with
  | none => rfl
  | some a0 =>
    cases getReq fields "type" decodeString with
    | none => rfl
    | some a1 =>
      cases getOpt fields "parameters" (decodeMap AttributeVal.from_json) [] with
      | none => rfl
      | some a2 =>
        cases getOpt fields "attributes" (decodeMap AttributeVal.from_json) [] with
        | none => rfl
        | some a3 =>
          cases getOpt fields "port_directions" (decodeMap PortDirection.from_json) [] with
          | none => rfl
          | some a4 =>
            rfl

theorem memory_width_required {fields : List (String × Json)}
    (habs : ∀ q ∈ fields, q.1 ≠ "width") : Memory.from_json (Json.obj fields) = none := by
  simp only [Memory.from_json]
  rw [getReq_absent habs]
  cases getOpt fields "hide_name" decodeUsize 0 with
  | none => rfl
  | some a0 =>
    cases getOpt fields "attributes" (decodeMap AttributeVal.from_json) [] with
    | none => rfl
    | some a1 =>
      rfl

theorem memory_size_required {fields : List (String × Json)}
    (habs : ∀ q ∈ fields, q.1 ≠ "size") : Memory.from_json (Json.obj fields) = none := by
  simp only [Memory.from_json]
  rw [getReq_absent habs]
  cases getOpt fields "hide_name" decodeUsize 0 with
  | none => rfl
  | some a0 =>
    cases getOpt fields "attributes" (decodeMap AttributeVal.from_json) [] with
    | none => rfl
    | some a1 =>
      cases getReq fields "width" decodeUsize with
      | none => rfl
      | some a2 =>
        rfl

theorem netname_bits_required {fields : List (String × Json)}
    (habs : ∀ q ∈ fields, q.1 ≠ "bits") : Netname.from_json (Json.obj fields) = none := by
  simp only [Netname.from_json]
  rw [getReq_absent habs]
  cases getOpt fields "hide_name" decodeUsize 0 with
  | none => rfl
  | some a0 =>
    rfl

/-- C6: decode applies the declared defaults when optional keys are absent
(`creator` to `""`, every entity map to empty, the numeric flags to `0`),
fails when a required field is absent or holds an incompatible JSON type,
the empty document decodes to the empty netlist, and a port omitting
`offset` decodes with offset `0`. -/
theorem defaults_and_required_fields :
    (Netlist.from_json (Json.obj []) = some (Netlist.mk "" [])) ∧
    (∀ (fields : List (String × Json)) (x : Netlist), (∀ q ∈ fields, q.1 ≠ "creator") →
      Netlist.from_json (Json.obj fields) = some x → x.creator = "") ∧
    (∀ (fields : List (String × Json)) (x : Netlist), (∀ q ∈ fields, q.1 ≠ "modules") →
      Netlist.from_json (Json.obj fields) = some x → x.modules = ([] : List (String × Module))) ∧
    (∀ (fields : List (String × Json)) (x : Module), (∀ q ∈ fields, q.1 ≠ "attributes") →
      Module.from_json (Json.obj fields) = some x → x.attributes = ([] : List (String × AttributeVal))) ∧
    (∀ (fields : List (String × Json)) (x : Module), (∀ q ∈ fields, q.1 ≠ "parameter_default_values") →
      Module.from_json (Json.obj fields) = some x → x.parameter_default_values = ([] : List (String × AttributeVal))) ∧
    (∀ (fields : List (String × Json)) (x : Module), (∀ q ∈ fields, q.1 ≠ "ports") →
      Module.from_json (Json.obj fields) = some x → x.ports = ([] : List (String × Port))) ∧
    (∀ (fields : List (String × Json)) (x : Module), (∀ q ∈ fields, q.1 ≠ "cells") →
      Module.from_json (Json.obj fields) = some x → x.cells = ([] : List (String × Cell))) ∧
    (∀ (fields : List (String × Json)) (x : Module), (∀ q ∈ fields, q.1 ≠ "memories") →
      Module.from_json (Json.obj fields) = some x → x.memories = ([] : List (String × Memory))) ∧
    (∀ (fields : List (String × Json)) (x : Module), (∀ q ∈ fields, q.1 ≠ "netnames") →
      Module.from_json (Json.obj fields) = some x → x.netnames = ([] : List (String × Netname))) ∧
    (∀ (fields : List (String × Json)) (x : Port), (∀ q ∈ fields, q.1 ≠ "offset") →
      Port.from_json (Json.obj fields) = some x → x.offset = 0) ∧
    (∀ (fields : List (String × Json)) (x : Port), (∀ q ∈ fields, q.1 ≠ "upto") →
      Port.from_json (Json.obj fields) = some x → x.upto = 0) ∧
    (∀ (fields : List (String × Json)) (x : Port), (∀ q ∈ fields, q.1 ≠ "signed") →
      Port.from_json (Json.obj fields) = some x → x.signed = 0) ∧
    (∀ (fields : List (String × Json)) (x : Cell), (∀ q ∈ fields, q.1 ≠ "hide_name") →
      Cell.from_json (Json.obj fields) = some x → x.hide_name = 0) ∧
    (∀ (fields : List (String × Json)) (x : Cell), (∀ q ∈ fields, q.1 ≠ "parameters") →
      Cell.from_json (Json.obj fields) = some x → x.parameters = ([] : List (String × AttributeVal))) ∧
    (∀ (fields : List (String × Json)) (x : Cell), (∀ q ∈ fields, q.1 ≠ "attributes") →
      Cell.from_json (Json.obj fields) = some x → x.attributes = ([] : List (String × AttributeVal))) ∧
    (∀ (fields : List (String × Json)) (x : Cell), (∀ q ∈ fields, q.1 ≠ "port_directions") →
      Cell.from_json (Json.obj fields) = some x → x.port_directions = ([] : List (String × PortDirection))) ∧
    (∀ (fields : List (String × Json)) (x : Memory), (∀ q ∈ fields, q.1 ≠ "hide_name") →
      Memory.from_json (Json.obj fields) = some x → x.hide_name = 0) ∧
    (∀ (fields : List (String × Json)) (x : Memory), (∀ q ∈ fields, q.1 ≠ "attributes") →
      Memory.from_json (Json.obj fields) = some x → x.attributes = ([] : List (String × AttributeVal))) ∧
    (∀ (fields : List (String × Json)) (x : Memory), (∀ q ∈ fields, q.1 ≠ "start_offset") →
      Memory.from_json (Json.obj fields) = some x → x.start_offset = 0) ∧
    (∀ (fields : List (String × Json)) (x : Netname), (∀ q ∈ fields, q.1 ≠ "hide_name") →
      Netname.from_json (Json.obj fields) = some x → x.hide_name = 0) ∧
    (∀ (fields : List (String × Json)) (x : Netname), (∀ q ∈ fields, q.1 ≠ "offset") →
      Netname.from_json (Json.obj fields) = some x → x.offset = 0) ∧
    (∀ (fields : List (String × Json)) (x : Netname), (∀ q ∈ fields, q.1 ≠ "upto") →
      Netname.from_json (Json.obj fields) = some x → x.upto = 0) ∧
    (∀ (fields : List (String × Json)) (x : Netname), (∀ q ∈ fields, q.1 ≠ "signed") →
      Netname.from_json (Json.obj fields) = some x → x.signed = 0) ∧
    (∀ (fields : List (String × Json)) (x : Netname), (∀ q ∈ fields, q.1 ≠ "attributes") →
      Netname.from_json (Json.obj fields) = some x → x.attributes = ([] : List (String × AttributeVal))) ∧
    (∀ fields : List (String × Json), (∀ q ∈ fields, q.1 ≠ "direction") →
      Port.from_json (Json.obj fields) = none) ∧
    (∀ fields : List (String × Json), (∀ q ∈ fields, q.1 ≠ "bits") →
      Port.from_json (Json.obj fields) = none) ∧
    (∀ fields : List (String × Json), (∀ q ∈ fields, q.1 ≠ "type") →
      Cell.from_json (Json.obj fields) = none) ∧
    (∀ fields : List (String × Json), (∀ q ∈ fields, q.1 ≠ "connections") →
      Cell.from_json (Json.obj fields) = none) ∧
    (∀ fields : List (String × Json), (∀ q ∈ fields, q.1 ≠ "width") →
      Memory.from_json (Json.obj fields) = none) ∧
    (∀ fields : List (String × Json), (∀ q ∈ fields, q.1 ≠ "size") →
      Memory.from_json (Json.obj fields) = none) ∧
    (∀ fields : List (String × Json), (∀ q ∈ fields, q.1 ≠ "bits") →
      Netname.from_json (Json.obj fields) = none) ∧
    (Port.from_json (Json.obj [("direction", Json.num 3), ("bits", Json.arr [])]) = none) ∧
    (Port.from_json (Json.obj [("direction", Json.str "input"), ("bits", Json.num 5)]) = none) ∧
    (Cell.from_json (Json.obj [("type", Json.num 1), ("connections", Json.obj [])]) = none) ∧
    (Cell.from_json (Json.obj [("type", Json.str "t"), ("connections", Json.arr [])]) = none) ∧
    (Memory.from_json (Json.obj [("width", Json.str "w"), ("size", Json.num 1)]) = none) ∧
    (Memory.from_json (Json.obj [("width", Json.num 8), ("size", Json.bool true)]) = none) ∧
    (Netname.from_json (Json.obj [("bits", Json.obj [])]) = none) ∧
    (Port.from_json (Json.obj [("direction", Json.str "input"), ("bits", Json.arr [Json.num 2, Json.num 3])]) = some (Port.mk PortDirection.Input [BitVal.N 2, BitVal.N 3] 0 0 0)) := by
  exact ⟨by decide,
    fun fields x habs h => netlist_creator_default habs h,
    fun fields x habs h => netlist_modules_default habs h,
    fun fields x habs h => module_attributes_default habs h,
    fun fields x habs h => module_parameter_default_values_default habs h,
    fun fields x habs h => module_ports_default habs h,
    fun fields x habs h => module_cells_default habs h,
    fun fields x habs h => module_memories_default habs h,
    fun fields x habs h => module_netnames_default habs h,
    fun fields x habs h => port_offset_default habs h,
    fun fields x habs h => port_upto_default habs h,
    fun fields x habs h => port_signed_default habs h,
    fun fields x habs h => cell_hide_name_default habs h,
    fun fields x habs h => cell_parameters_default habs h,
    fun fields x habs h => cell_attributes_default habs h,
    fun fields x habs h => cell_port_directions_default habs h,
    fun fields x habs h => memory_hide_name_default habs h,
    fun fields x habs h => memory_attributes_default habs h,
    fun fields x habs h => memory_start_offset_default habs h,
    fun fields x habs h => netname_hide_name_default habs h,
    fun fields x habs h => netname_offset_default habs h,
    fun fields x habs h => netname_upto_default habs h,
    fun fields x habs h => netname_signed_default habs h,
    fun fields x habs h => netname_attributes_default habs h,
    fun fields habs => port_direction_required habs,
    fun fields habs => port_bits_required habs,
    fun fields habs => cell_type_required habs,
    fun fields habs => cell_connections_required habs,
    fun fields habs => memory_width_required habs,
    fun fields habs => memory_size_required habs,
    fun fields habs => netname_bits_required habs,
    by decide,
    by decide,
    by decide,
    by decide,
    by decide,
    by decide,
    by decide,
    by decide⟩

/-- C6 witness: the universally quantified parts applied at concrete
objects — a port without `offset` has offset `0`, and a port object with
no `direction` key fails decode. -/
theorem defaults_and_required_fields_witness :
    (Port.mk PortDirection.Input [BitVal.N 2] 0 0 0).offset = 0 ∧
      Port.from_json (Json.obj [("bits", Json.arr [])]) = none := by
  constructor
  · exact defaults_and_required_fields.2.2.2.2.2.2.2.2.2.1
      [("direction", Json.str "input"), ("bits", Json.arr [Json.num 2])]
      (Port.mk PortDirection.Input [BitVal.N 2] 0 0 0) (by decide) (by decide)
  · exact defaults_and_required_fields.2.2.2.2.2.2.2.2.2.2.2.2.2.2.2.2.2.2.2.2.2.2.2.2.1
      [("bits", Json.arr [])] (by decide)

end Yosys
